import Mathlib

/-!
# XDP load balancer (`lb.c`): shallow embedding and verified properties

The hook `lb_main` of `src/lb.c` is embedded as a function from the shared
tables and the packet buffer to the hook's outcome.

* The packet buffer `[data, data_end)` is a list of bytes.  Every access of
  the C code is a checked load or store: it yields `none` when it falls
  outside the buffer, so a memory fault of the hook is a `none` of the model.
* Machine integers are natural numbers, reduced `% 2^w` wherever the C type
  wraps.
* The byte order of the BPF target is a parameter (`Endian`): multi-byte
  fields are loaded and stored in the target's native order, and
  `bpf_htons` / `bpf_ntohs` swap the two bytes on a little-endian target.
* The four `BPF_MAP_TYPE_ARRAY` tables are arrays of `max_entries` slots;
  a lookup fails exactly when the key is not below `max_entries`.
* `bpf_printk` is modelled as the diagnostic record carried by the outcome.
-/

namespace LB

/-! ## Machine model -/

/-- Byte order of the BPF target the program is compiled for. -/
inductive Endian where
  | little
  | big
  deriving DecidableEq, Repr

/-- One byte of the packet buffer. -/
abbrev Byte := Fin 256

/-- The packet buffer between `data` and `data_end`. -/
abbrev Packet := List Byte

/-- Truncation of a value to one byte. -/
def byte (v : Nat) : Byte := ⟨v % 256, Nat.mod_lt v (by decide)⟩

/-- Bitwise complement of a 32-bit value (`~x` on `__u32` / promoted `int`). -/
def bnot32 (x : Nat) : Nat := 0xFFFFFFFF - x % 2 ^ 32

/-- The byte at offset `off`; 0 past the end (only used under a bounds check). -/
def rd8 (d : Packet) (off : Nat) : Nat := (d.getD off 0).val

/-- The 16-bit value at `off` in the target's byte order. -/
def rd16 (e : Endian) (d : Packet) (off : Nat) : Nat :=
  match e with
  | .little => rd8 d off + 256 * rd8 d (off + 1)
  | .big => 256 * rd8 d off + rd8 d (off + 1)

/-- The 32-bit value at `off` in the target's byte order. -/
def rd32 (e : Endian) (d : Packet) (off : Nat) : Nat :=
  match e with
  | .little => rd16 e d off + 65536 * rd16 e d (off + 2)
  | .big => 65536 * rd16 e d off + rd16 e d (off + 2)

/-- Overwrite the byte at `off` with the low 8 bits of `v`. -/
def wr8 (d : Packet) (off : Nat) (v : Nat) : Packet := d.set off (byte v)

/-- Overwrite two bytes at `off` with the low 16 bits of `v`. -/
def wr16 (e : Endian) (d : Packet) (off : Nat) (v : Nat) : Packet :=
  match e with
  | .little => wr8 (wr8 d off v) (off + 1) (v / 256)
  | .big => wr8 (wr8 d off (v / 256)) (off + 1) v

/-- Overwrite four bytes at `off` with the low 32 bits of `v`. -/
def wr32 (e : Endian) (d : Packet) (off : Nat) (v : Nat) : Packet :=
  match e with
  | .little => wr16 e (wr16 e d off v) (off + 2) (v / 65536)
  | .big => wr16 e (wr16 e d off (v / 65536)) (off + 2) v

/-- Checked 8-bit load: `none` when the byte is not inside the buffer. -/
def load8 (d : Packet) (off : Nat) : Option Nat :=
  if off + 1 ≤ d.length then some (rd8 d off) else none

/-- Checked 16-bit load. -/
def load16 (e : Endian) (d : Packet) (off : Nat) : Option Nat :=
  if off + 2 ≤ d.length then some (rd16 e d off) else none

/-- Checked 32-bit load. -/
def load32 (e : Endian) (d : Packet) (off : Nat) : Option Nat :=
  if off + 4 ≤ d.length then some (rd32 e d off) else none

/-- Checked 16-bit store. -/
def store16 (e : Endian) (d : Packet) (off : Nat) (v : Nat) : Option Packet :=
  if off + 2 ≤ d.length then some (wr16 e d off v) else none

/-- Checked 32-bit store. -/
def store32 (e : Endian) (d : Packet) (off : Nat) (v : Nat) : Option Packet :=
  if off + 4 ≤ d.length then some (wr32 e d off v) else none

/-- The macro `bpf_htons` on a 16-bit operand: identity on a big-endian
target, byte swap on a little-endian one. -/
def bpf_htons (e : Endian) (x : Nat) : Nat :=
  match e with
  | .little => (x % 256) * 256 + (x / 256) % 256
  | .big => x % 65536

/-- The macro `bpf_ntohs`: the same conversion as `bpf_htons`. -/
def bpf_ntohs (e : Endian) (x : Nat) : Nat := bpf_htons e x

/-! ## Constants and layouts (`linux/if_ether.h`, `linux/ip.h`, `linux/tcp.h`, `linux/in.h`) -/

def MAX_BACKENDS : Nat := 16
def RING_SIZE : Nat := 256
def ETH_P_IP : Nat := 0x0800
def IPPROTO_TCP : Nat := 6
/-- Size of `struct ethhdr`. -/
def ETH_HLEN : Nat := 14
/-- Size of `struct iphdr`. -/
def IPHDR_SIZE : Nat := 20
/-- Size of `struct tcphdr`. -/
def TCPHDR_SIZE : Nat := 20

/-- Offset of `h_proto` in `struct ethhdr`. -/
def OFF_ETH_PROTO : Nat := 12
/-- Offset of the version/ihl byte in `struct iphdr`. -/
def OFF_IP_VIHL : Nat := 0
/-- Offset of `protocol` in `struct iphdr`. -/
def OFF_IP_PROTOCOL : Nat := 9
/-- Offset of `check` in `struct iphdr`. -/
def OFF_IP_CHECK : Nat := 10
/-- Offset of `saddr` in `struct iphdr`. -/
def OFF_IP_SADDR : Nat := 12
/-- Offset of `daddr` in `struct iphdr`. -/
def OFF_IP_DADDR : Nat := 16
/-- Offset of `source` in `struct tcphdr`. -/
def OFF_TCP_SOURCE : Nat := 0
/-- Offset of `dest` in `struct tcphdr`. -/
def OFF_TCP_DEST : Nat := 2
/-- Offset of `check` in `struct tcphdr`. -/
def OFF_TCP_CHECK : Nat := 16

/-- The actions of `enum xdp_action`. -/
inductive xdp_action where
  | XDP_ABORTED
  | XDP_DROP
  | XDP_PASS
  | XDP_TX
  | XDP_REDIRECT
  deriving DecidableEq, Repr

/-! ## Shared tables -/

/-- The record `struct backend`: `ip` is a `__u32`, `port` and `active` are `__u16`. -/
structure backend where
  ip : Nat
  port : Nat
  active : Nat
  deriving DecidableEq, Repr

/-- A `BPF_MAP_TYPE_ARRAY` with `max_entries` slots of values `α`. -/
structure ArrayMap (max_entries : Nat) (α : Type) where
  slots : Nat → α

/-- The helper `bpf_map_lookup_elem` on an array map: the slot when the key is
below `max_entries`, `NULL` otherwise. -/
def bpf_map_lookup_elem {n : Nat} {α : Type} (m : ArrayMap n α) (key : Nat) : Option α :=
  if key < n then some (m.slots key) else none

/-- The four tables declared in `lb.c` (lines 20-46). -/
structure Maps where
  backends : ArrayMap MAX_BACKENDS backend
  hash_ring : ArrayMap RING_SIZE Nat
  conn_count : ArrayMap MAX_BACKENDS Nat
  lb_port : ArrayMap 1 Nat

/-- The atomic `__sync_fetch_and_add(count, 1)` on the `__u64` slot `key` of the
counter table. -/
def fetch_and_add_one (m : ArrayMap MAX_BACKENDS Nat) (key : Nat) : ArrayMap MAX_BACKENDS Nat :=
  ⟨fun j => if j = key then (m.slots key + 1) % 2 ^ 64 else m.slots j⟩

/-! ## The program -/

/-- The hash `jhash_2words` (lines 48-56), all arithmetic on `__u32`. -/
def jhash_2words (a b : Nat) : Nat :=
  let hash := (a + b) % 2 ^ 32
  let hash := (hash + (hash <<< 10) % 2 ^ 32) % 2 ^ 32
  let hash := hash ^^^ (hash >>> 6)
  let hash := (hash + (hash <<< 3) % 2 ^ 32) % 2 ^ 32
  let hash := hash ^^^ (hash >>> 11)
  let hash := (hash + (hash <<< 15) % 2 ^ 32) % 2 ^ 32
  hash

/-- The loop of `update_ip_checksum` (lines 64-65): adds the 16-bit words
`ptr[i] .. ptr[9]` to the `__u32` accumulator; `fuel = 10 - i`. -/
def ip_sum_loop (e : Endian) (d : Packet) (iph : Nat) : Nat → Nat → Nat → Option Nat
  | 0, _, sum => some sum
  | fuel + 1, i, sum =>
    (load16 e d (iph + 2 * i)).bind fun w =>
    ip_sum_loop e d iph fuel (i + 1) ((sum + w) % 2 ^ 32)

/-- One carry fold `(sum & 0xFFFF) + (sum >> 16)`. -/
def fold16 (sum : Nat) : Nat := (sum &&& 0xFFFF) + (sum >>> 16)

/-- The function `update_ip_checksum` (lines 58-70) on the header at offset `iph`. -/
def update_ip_checksum (e : Endian) (d : Packet) (iph : Nat) : Option Packet :=
  (store16 e d (iph + OFF_IP_CHECK) 0).bind fun d1 =>
  (ip_sum_loop e d1 iph 10 0 0).bind fun sum =>
  let sum := fold16 sum
  let sum := fold16 sum
  store16 e d1 (iph + OFF_IP_CHECK) (bnot32 sum)

/-- The function `update_tcp_checksum` (lines 72-81) on the TCP header at offset `tcp`. -/
def update_tcp_checksum (e : Endian) (d : Packet) (tcp old_ip new_ip : Nat) : Option Packet :=
  (load16 e d (tcp + OFF_TCP_CHECK)).bind fun check =>
  let sum := (bnot32 (bpf_ntohs e check)) &&& 0xFFFF
  let sum := (sum + 2 ^ 32 - (old_ip &&& 0xFFFF)) % 2 ^ 32
  let sum := (sum + 2 ^ 32 - (old_ip >>> 16)) % 2 ^ 32
  let sum := (sum + (new_ip &&& 0xFFFF)) % 2 ^ 32
  let sum := (sum + (new_ip >>> 16)) % 2 ^ 32
  let sum := fold16 sum
  let sum := fold16 sum
  store16 e d (tcp + OFF_TCP_CHECK) (bpf_htons e (bnot32 sum))

/-- The outcome of one run of the hook: the returned action, the packet
buffer and the tables as the hook leaves them, and the arguments of the
`bpf_printk` record (source address, backend index, backend address) when
one is emitted. -/
structure Result where
  action : xdp_action
  data : Packet
  maps : Maps
  trace : Option (Nat × Nat × Nat)

/-- An early `return XDP_PASS`: nothing written, nothing traced. -/
def pass_through (maps : Maps) (data : Packet) : Result :=
  ⟨xdp_action.XDP_PASS, data, maps, none⟩

/-- Lines 122-134 of `lb_main`: rewrite of the destination address, repair
of both checksums, counter increment and trace, for the backend `be` found
at index `backend_idx`. -/
def lb_rewrite (e : Endian) (maps : Maps) (data : Packet) (iph tcp backend_idx : Nat)
    (be : backend) : Option Result :=
  (load32 e data (iph + OFF_IP_DADDR)).bind fun old_daddr =>
  (store32 e data (iph + OFF_IP_DADDR) be.ip).bind fun d1 =>
  (update_ip_checksum e d1 iph).bind fun d2 =>
  (update_tcp_checksum e d2 tcp old_daddr be.ip).bind fun d3 =>
  let maps1 : Maps :=
    match bpf_map_lookup_elem maps.conn_count backend_idx with
    | none => maps
    | some _ => { maps with conn_count := fetch_and_add_one maps.conn_count backend_idx }
  (load32 e d3 (iph + OFF_IP_SADDR)).bind fun saddr =>
  some ⟨xdp_action.XDP_PASS, d3, maps1, some (saddr, backend_idx, be.ip)⟩

/-- Lines 111-120 of `lb_main`: hash of the flow identity, ring slot,
backend lookup and usability test; then the rewrite. -/
def lb_select (e : Endian) (maps : Maps) (data : Packet) (iph tcp : Nat) : Option Result :=
  (load32 e data (iph + OFF_IP_SADDR)).bind fun saddr =>
  (load16 e data (tcp + OFF_TCP_SOURCE)).bind fun source =>
  let hash := jhash_2words saddr source
  let ring_pos := hash % RING_SIZE
  match bpf_map_lookup_elem maps.hash_ring ring_pos with
  | none => some (pass_through maps data)
  | some backend_idx =>
    match bpf_map_lookup_elem maps.backends backend_idx with
    | none => some (pass_through maps data)
    | some be =>
      if be.active = 0 ∨ be.ip = 0 then some (pass_through maps data)
      else lb_rewrite e maps data iph tcp backend_idx be

/-- The hook `lb_main` (lines 84-135).  `none` is an access outside the
buffer. -/
def lb_main (e : Endian) (maps : Maps) (data : Packet) : Option Result :=
  let data_end := data.length
  let eth := 0
  if eth + ETH_HLEN > data_end then some (pass_through maps data) else
  (load16 e data (eth + OFF_ETH_PROTO)).bind fun h_proto =>
  if h_proto ≠ bpf_htons e ETH_P_IP then some (pass_through maps data) else
  let iph := eth + ETH_HLEN
  if iph + IPHDR_SIZE > data_end then some (pass_through maps data) else
  (load8 data (iph + OFF_IP_PROTOCOL)).bind fun protocol =>
  if protocol ≠ IPPROTO_TCP then some (pass_through maps data) else
  (load8 data (iph + OFF_IP_VIHL)).bind fun vihl =>
  let ihl := vihl % 16
  let tcp := iph + ihl * 4
  if tcp + TCPHDR_SIZE > data_end then some (pass_through maps data) else
  match bpf_map_lookup_elem maps.lb_port 0 with
  | none => some (pass_through maps data)
  | some target_port =>
    if target_port = 0 then some (pass_through maps data) else
    (load16 e data (tcp + OFF_TCP_DEST)).bind fun dest =>
    if bpf_ntohs e dest ≠ target_port then some (pass_through maps data) else
    lb_select e maps data iph tcp

/-! ## Wire view of a packet -/

/-- The EtherType, read in network byte order. -/
def eth_type (d : Packet) : Nat := rd16 .big d OFF_ETH_PROTO
/-- The IPv4 protocol field. -/
def ip_protocol (d : Packet) : Nat := rd8 d (ETH_HLEN + OFF_IP_PROTOCOL)
/-- The IPv4 header-length field `ihl` (low four bits of the first header byte). -/
def ip_ihl (d : Packet) : Nat := rd8 d (ETH_HLEN + OFF_IP_VIHL) % 16
/-- Where `lb_main` places the TCP header: `iph + ihl * 4`. -/
def tcp_offset (d : Packet) : Nat := ETH_HLEN + ip_ihl d * 4
/-- The IPv4 source address, in network byte order. -/
def ip_saddr (d : Packet) : Nat := rd32 .big d (ETH_HLEN + OFF_IP_SADDR)
/-- The TCP source port, in network byte order. -/
def tcp_sport (d : Packet) : Nat := rd16 .big d (tcp_offset d + OFF_TCP_SOURCE)
/-- The TCP destination port, converted from network byte order. -/
def tcp_dport (d : Packet) : Nat := rd16 .big d (tcp_offset d + OFF_TCP_DEST)

/-- The ring slot of lines 111-112: the hash of `iph->saddr` and `tcp->source`
as the target loads them, reduced modulo `RING_SIZE`. -/
def ring_pos (e : Endian) (d : Packet) : Nat :=
  jhash_2words (rd32 e d (ETH_HLEN + OFF_IP_SADDR)) (rd16 e d (tcp_offset d + OFF_TCP_SOURCE))
    % RING_SIZE

/-- The packet passes the validation and classification of lines 85-109:
the three headers fit in the buffer, the frame is IPv4 and TCP, and the TCP
destination port is the configured, non-zero target port. -/
def classified (maps : Maps) (d : Packet) : Prop :=
  ETH_HLEN ≤ d.length ∧ eth_type d = ETH_P_IP ∧ ETH_HLEN + IPHDR_SIZE ≤ d.length ∧
  ip_protocol d = IPPROTO_TCP ∧ tcp_offset d + TCPHDR_SIZE ≤ d.length ∧
  bpf_map_lookup_elem maps.lb_port 0 = some (tcp_dport d) ∧ tcp_dport d ≠ 0

instance (maps : Maps) (d : Packet) : Decidable (classified maps d) := by
  unfold classified; infer_instance

/-- The selection of lines 114-120 at a ring slot: the backend index held by
the slot and its record, or `none` when the slot or the record is missing or
the backend is unusable. -/
def select_backend (maps : Maps) (ring_pos : Nat) : Option (Nat × backend) :=
  match bpf_map_lookup_elem maps.hash_ring ring_pos with
  | none => none
  | some backend_idx =>
    match bpf_map_lookup_elem maps.backends backend_idx with
    | none => none
    | some be => if be.active = 0 ∨ be.ip = 0 then none else some (backend_idx, be)

/-- The buffer after the stores of lines 123-126: the destination address
`ip`, the IPv4 checksum field (zeroed, then set to `ck`) and the TCP checksum
field of the header at `tcp` set to `tck`. -/
def rewritten (e : Endian) (d : Packet) (tcp ip ck tck : Nat) : Packet :=
  wr16 e (wr16 e (wr16 e (wr32 e d (ETH_HLEN + OFF_IP_DADDR) ip) (ETH_HLEN + OFF_IP_CHECK) 0)
    (ETH_HLEN + OFF_IP_CHECK) ck) (tcp + OFF_TCP_CHECK) tck

/-- The IPv4 destination-address field as the target loads it (`iph->daddr`). -/
def ip_daddr_field (e : Endian) (d : Packet) : Nat := rd32 e d (ETH_HLEN + OFF_IP_DADDR)
/-- The IPv4 header-checksum field, in network byte order. -/
def ip_check (d : Packet) : Nat := rd16 .big d (ETH_HLEN + OFF_IP_CHECK)
/-- The TCP checksum field, in network byte order. -/
def tcp_check (d : Packet) : Nat := rd16 .big d (tcp_offset d + OFF_TCP_CHECK)

/-! ## Reference checksums (full recomputation)

These follow the specification's words, not the code: the Internet checksum
is the complement of the one's-complement (end-around carry) sum of the
16-bit words in network byte order.  They are what the fields written by the
hook are compared against. -/

/-- One's-complement addition of two 16-bit words (end-around carry). -/
def spec_csum_add (a b : Nat) : Nat := if a + b > 0xFFFF then a + b - 0xFFFF else a + b

/-- The 16-bit words of a byte string in network byte order, an odd last
byte padded with a zero byte. -/
def spec_words16 : List Byte → List Nat
  | [] => []
  | [a] => [256 * a.val]
  | a :: b :: rest => (256 * a.val + b.val) :: spec_words16 rest

/-- The Internet checksum of a byte string. -/
def spec_inet_checksum (bs : List Byte) : Nat :=
  0xFFFF - (spec_words16 bs).foldl spec_csum_add 0

/-- The IPv4 header checksum computed from scratch: over all `ihl * 4` bytes
of the header, the checksum field taken as zero. -/
def spec_ip_checksum (d : Packet) : Nat :=
  let hdr := (d.drop ETH_HLEN).take (ip_ihl d * 4)
  spec_inet_checksum ((hdr.set OFF_IP_CHECK 0).set (OFF_IP_CHECK + 1) 0)

/-- The TCP checksum computed from scratch: over the pseudo-header (source
address, destination address, zero, protocol 6, TCP length) followed by the
TCP header and payload up to the end of the buffer, the checksum field taken
as zero. -/
def spec_tcp_checksum (d : Packet) : Nat :=
  let seg := d.drop (tcp_offset d)
  let pseudo : List Byte :=
    (d.drop (ETH_HLEN + OFF_IP_SADDR)).take 8 ++
      [0, byte IPPROTO_TCP, byte (seg.length / 256), byte seg.length]
  spec_inet_checksum (pseudo ++ (seg.set OFF_TCP_CHECK 0).set (OFF_TCP_CHECK + 1) 0)

/-! ## Concrete inputs

The specification's example scenario: target port 8080, backend 3 is
10.0.0.5 and active, every ring slot names backend 3; a TCP segment from
1.2.3.4:55555 to 192.168.0.1:8080. -/

/-- The tables of the example scenario; the backend address 10.0.0.5 is held
the way the target stores an address. -/
def scenario_maps (e : Endian) : Maps where
  backends := ⟨fun k => if k = 3 then ⟨rd32 e [10, 0, 0, 5] 0, 0, 1⟩ else ⟨0, 0, 0⟩⟩
  hash_ring := ⟨fun _ => 3⟩
  conn_count := ⟨fun _ => 0⟩
  lb_port := ⟨fun _ => 8080⟩

/-- A 54-byte frame: Ethernet, a 20-byte IPv4 header (`ihl = 5`) from 1.2.3.4
to 192.168.0.1 with a valid header checksum, and a 20-byte TCP SYN from port
55555 to port 8080 with a valid TCP checksum. -/
def scenario_pkt : Packet :=
  [0, 0, 0, 0, 0, 1, 0, 0, 0, 0, 0, 2, 8, 0,
   69, 0, 0, 40, 0, 1, 0, 0, 64, 6, 182, 32, 1, 2, 3, 4, 192, 168, 0, 1,
   217, 3, 31, 144, 0, 0, 0, 0, 0, 0, 0, 0, 80, 2, 255, 255, 242, 159, 0, 0]

/-- The same flow with a 24-byte IPv4 header (`ihl = 6`, four no-operation
option bytes) and valid IPv4 and TCP checksums. -/
def options_pkt : Packet :=
  [0, 0, 0, 0, 0, 1, 0, 0, 0, 0, 0, 2, 8, 0,
   70, 0, 0, 44, 0, 1, 0, 0, 64, 6, 179, 26, 1, 2, 3, 4, 192, 168, 0, 1, 1, 1, 1, 1,
   217, 3, 31, 144, 0, 0, 0, 0, 0, 0, 0, 0, 80, 2, 255, 255, 242, 159, 0, 0]

/-- A 34-byte frame whose IPv4 header announces `ihl = 0`: the hook then
places the TCP header on top of the IPv4 header, where the bytes of the
total-length field read as destination port 8080. -/
def ihl_zero_pkt : Packet :=
  [0, 0, 0, 0, 0, 1, 0, 0, 0, 0, 0, 2, 8, 0,
   64, 0, 31, 144, 0, 1, 0, 0, 64, 6, 0, 0, 1, 2, 3, 4, 192, 168, 0, 1]

/-- The frame `ihl_zero_pkt` with original destination 192.168.0.2 instead of
192.168.0.1: the same flow (source address, source port), another
destination. -/
def ihl_zero_pkt_b : Packet :=
  [0, 0, 0, 0, 0, 1, 0, 0, 0, 0, 0, 2, 8, 0,
   64, 0, 31, 144, 0, 1, 0, 0, 64, 6, 0, 0, 1, 2, 3, 4, 192, 168, 0, 2]

/-- The scenario's tables with backend 3 switched off. -/
def inactive_maps : Maps :=
  { scenario_maps .little with backends := ⟨fun _ => ⟨83886090, 0, 0⟩⟩ }

/-- The scenario's tables with target port 9090. -/
def other_port_maps : Maps :=
  { scenario_maps .little with lb_port := ⟨fun _ => 9090⟩ }

/-- The scenario's tables with the target port unset (zero). -/
def unset_port_maps : Maps :=
  { scenario_maps .little with lb_port := ⟨fun _ => 0⟩ }

/-- The scenario's tables with every ring slot naming index 16, one past the
backend pool. -/
def bad_ring_maps : Maps :=
  { scenario_maps .little with hash_ring := ⟨fun _ => 16⟩ }

/-- The scenario's frame with TCP destination port 0. -/
def zero_port_pkt : Packet := (scenario_pkt.set 36 0).set 37 0

/-! ## Statement-level definitions for the checksum and hash claims -/

/-- The `n` 16-bit words `ptr[i], ..., ptr[i + n - 1]` of the header at
offset `iph`, as the target loads them. -/
def hdr_words (e : Endian) (d : Packet) (iph : Nat) : Nat → Nat → List Nat
  | _, 0 => []
  | i, n + 1 => rd16 e d (iph + 2 * i) :: hdr_words e d iph (i + 1) n

/-- The one's-complement (end-around carry) sum of a list of 16-bit words. -/
def spec_ones_sum (ws : List Nat) : Nat := ws.foldl spec_csum_add 0

/-- The pinned mixing sequence in the specification's words: multiply and
xor-shift rounds on 32-bit values. -/
def spec_jhash (a b : Nat) : Nat :=
  let h0 := (a + b) % 2 ^ 32
  let h1 := (1025 * h0) % 2 ^ 32
  let h2 := h1 ^^^ (h1 / 2 ^ 6)
  let h3 := (9 * h2) % 2 ^ 32
  let h4 := h3 ^^^ (h3 / 2 ^ 11)
  (32769 * h4) % 2 ^ 32

/-- The scenario's frame from 2.2.3.4 with the first byte of the source port
lowered by one: on a little-endian target another flow whose source address
and source port have the same sum. -/
def same_sum_pkt : Packet := ((scenario_pkt.set 26 2).set 34 216)

theorem rd8_lt (d : Packet) (off : Nat) : rd8 d off < 256 := (d.getD off 0).isLt

theorem rd16_big_lt (d : Packet) (off : Nat) : rd16 .big d off < 65536 := by
  have h0 := rd8_lt d off
  have h1 := rd8_lt d (off + 1)
  simp only [rd16]; omega

theorem ntohs_rd16 (e : Endian) (d : Packet) (off : Nat) :
    bpf_ntohs e (rd16 e d off) = rd16 .big d off := by
  have h0 := rd8_lt d off
  have h1 := rd8_lt d (off + 1)
  cases e <;> simp only [bpf_ntohs, bpf_htons, rd16] <;> omega

theorem rd16_eq_htons_iff (e : Endian) (d : Packet) (off x : Nat) (hx : x < 65536) :
    rd16 e d off = bpf_htons e x ↔ rd16 .big d off = x := by
  have h0 := rd8_lt d off
  have h1 := rd8_lt d (off + 1)
  have h2 : x / 256 < 256 := by omega
  have h3 : x / 256 % 256 = x / 256 := Nat.mod_eq_of_lt h2
  cases e <;> simp only [bpf_htons, rd16, h3] <;> constructor <;> intro h <;> omega

theorem lookup_port_zero (maps : Maps) :
    bpf_map_lookup_elem maps.lb_port 0 = some (maps.lb_port.slots 0) := by
  simp [bpf_map_lookup_elem]

theorem lb_main_of_classified (e : Endian) (maps : Maps) (d : Packet)
    (h : classified maps d) :
    lb_main e maps d = lb_select e maps d ETH_HLEN (tcp_offset d) := by
  obtain ⟨h1, h2, h3, h4, h5, h6, h7⟩ := h
  have hp : rd16 e d OFF_ETH_PROTO = bpf_htons e ETH_P_IP :=
    (rd16_eq_htons_iff e d _ _ (by decide)).2 h2
  simp only [ETH_HLEN, IPHDR_SIZE, TCPHDR_SIZE, OFF_ETH_PROTO, OFF_IP_PROTOCOL, OFF_IP_VIHL,
    OFF_TCP_DEST, tcp_offset, ip_ihl, ip_protocol, eth_type, tcp_dport, Nat.add_zero] at *
  have e1 : load16 e d 12 = some (rd16 e d 12) := by simp only [load16]; rw [if_pos (by omega)]
  have e2 : load8 d 23 = some (rd8 d 23) := by simp only [load8]; rw [if_pos (by omega)]
  have e3 : load8 d 14 = some (rd8 d 14) := by simp only [load8]; rw [if_pos (by omega)]
  have e4 : load16 e d (14 + rd8 d 14 % 16 * 4 + 2) = some (rd16 e d (14 + rd8 d 14 % 16 * 4 + 2)) := by
    simp only [load16]; rw [if_pos (by omega)]
  simp only [lb_main, ETH_HLEN, IPHDR_SIZE, TCPHDR_SIZE, OFF_ETH_PROTO, OFF_IP_PROTOCOL,
    OFF_IP_VIHL, OFF_TCP_DEST, Nat.zero_add, Nat.add_zero, e1, e2, e3, e4, Option.bind, h6, hp,
    h4, ntohs_rd16]
  simp [show ¬ (14 > d.length) by omega, show ¬ (34 > d.length) by omega,
    show ¬ (14 + rd8 d 14 % 16 * 4 + 20 > d.length) by omega, h7]

theorem lb_main_of_not_classified (e : Endian) (maps : Maps) (d : Packet)
    (h : ¬ classified maps d) :
    lb_main e maps d = some (pass_through maps d) := by
  simp only [classified, ETH_HLEN, IPHDR_SIZE, TCPHDR_SIZE, OFF_ETH_PROTO, OFF_IP_PROTOCOL,
    OFF_IP_VIHL, OFF_TCP_DEST, tcp_offset, ip_ihl, ip_protocol, eth_type, tcp_dport,
    Nat.add_zero] at h
  simp only [lb_main, ETH_HLEN, IPHDR_SIZE, TCPHDR_SIZE, OFF_ETH_PROTO, OFF_IP_PROTOCOL,
    OFF_IP_VIHL, OFF_TCP_DEST, Nat.zero_add, Nat.add_zero]
  by_cases h1 : 14 > d.length
  · rw [if_pos h1]
  rw [if_neg h1]
  have e1 : load16 e d 12 = some (rd16 e d 12) := by simp only [load16]; rw [if_pos (by omega)]
  rw [e1, Option.some_bind]
  by_cases h2 : rd16 e d 12 ≠ bpf_htons e ETH_P_IP
  · rw [if_pos h2]
  rw [if_neg h2]
  by_cases h3 : 34 > d.length
  · rw [if_pos h3]
  rw [if_neg h3]
  have e2 : load8 d 23 = some (rd8 d 23) := by simp only [load8]; rw [if_pos (by omega)]
  rw [e2, Option.some_bind]
  by_cases h4 : rd8 d 23 ≠ IPPROTO_TCP
  · rw [if_pos h4]
  rw [if_neg h4]
  have e3 : load8 d 14 = some (rd8 d 14) := by simp only [load8]; rw [if_pos (by omega)]
  rw [e3, Option.some_bind]
  by_cases h5 : 14 + rd8 d 14 % 16 * 4 + 20 > d.length
  · simp only [h5, if_true]
  simp only [h5, if_false, lookup_port_zero]
  by_cases h6 : maps.lb_port.slots 0 = 0
  · rw [if_pos h6]
  rw [if_neg h6]
  have e4 : load16 e d (14 + rd8 d 14 % 16 * 4 + 2)
      = some (rd16 e d (14 + rd8 d 14 % 16 * 4 + 2)) := by
    simp only [load16]; rw [if_pos (by omega)]
  rw [e4, Option.some_bind, ntohs_rd16]
  by_cases h7 : rd16 .big d (14 + rd8 d 14 % 16 * 4 + 2) ≠ maps.lb_port.slots 0
  · rw [if_pos h7]
  exfalso
  apply h
  have hp := (rd16_eq_htons_iff e d 12 ETH_P_IP (by decide)).1 (not_not.1 h2)
  have h7 := not_not.1 h7
  refine ⟨by omega, hp, by omega, not_not.1 h4, by omega, ?_, ?_⟩
  · rw [lookup_port_zero, h7]
  · rw [h7]; exact h6

theorem length_wr8 (d : Packet) (off v : Nat) : (wr8 d off v).length = d.length := by
  simp [wr8]

theorem length_wr16 (e : Endian) (d : Packet) (off v : Nat) :
    (wr16 e d off v).length = d.length := by
  cases e <;> simp [wr16, length_wr8]

theorem length_wr32 (e : Endian) (d : Packet) (off v : Nat) :
    (wr32 e d off v).length = d.length := by
  cases e <;> simp [wr32, length_wr16]

theorem load16_of_le (e : Endian) (d : Packet) (off : Nat) (h : off + 2 ≤ d.length) :
    load16 e d off = some (rd16 e d off) := by
  simp only [load16]; rw [if_pos h]

theorem load32_of_le (e : Endian) (d : Packet) (off : Nat) (h : off + 4 ≤ d.length) :
    load32 e d off = some (rd32 e d off) := by
  simp only [load32]; rw [if_pos h]

theorem store16_of_le (e : Endian) (d : Packet) (off v : Nat) (h : off + 2 ≤ d.length) :
    store16 e d off v = some (wr16 e d off v) := by
  simp only [store16]; rw [if_pos h]

theorem store32_of_le (e : Endian) (d : Packet) (off v : Nat) (h : off + 4 ≤ d.length) :
    store32 e d off v = some (wr32 e d off v) := by
  simp only [store32]; rw [if_pos h]

theorem ip_sum_loop_some (e : Endian) (d : Packet) (iph : Nat) :
    ∀ (fuel i sum : Nat), iph + 2 * (i + fuel) ≤ d.length →
      ∃ s, ip_sum_loop e d iph fuel i sum = some s := by
  intro fuel
  induction fuel with
  | zero => intro i sum _; exact ⟨sum, rfl⟩
  | succ n ih =>
    intro i sum h
    simp only [ip_sum_loop]
    rw [load16_of_le e d _ (by omega), Option.some_bind]
    exact ih (i + 1) _ (by omega)

/-! ## Frame lemmas for stores -/

theorem rd8_wr8_ne (d : Packet) (off v i : Nat) (h : i ≠ off) :
    rd8 (wr8 d off v) i = rd8 d i := by
  simp only [rd8, wr8, List.getD_eq_getElem?_getD]
  rw [List.getElem?_set_ne (Ne.symm h)]

theorem rd8_wr8_eq (d : Packet) (off v : Nat) (h : off < d.length) :
    rd8 (wr8 d off v) off = v % 256 := by
  simp only [rd8, wr8, List.getD_eq_getElem?_getD]
  rw [List.getElem?_set_self h]
  rfl

theorem rd8_wr16_ne (e : Endian) (d : Packet) (off v i : Nat) (h0 : i ≠ off)
    (h1 : i ≠ off + 1) : rd8 (wr16 e d off v) i = rd8 d i := by
  cases e <;> simp only [wr16] <;> rw [rd8_wr8_ne _ _ _ _ h1, rd8_wr8_ne _ _ _ _ h0]

theorem rd16_wr16_eq (e : Endian) (d : Packet) (off v : Nat) (h : off + 2 ≤ d.length) :
    rd16 e (wr16 e d off v) off = v % 65536 := by
  cases e <;> simp only [rd16, wr16]
  · rw [rd8_wr8_ne _ _ _ _ (by omega), rd8_wr8_eq _ _ _ (by omega),
      rd8_wr8_eq _ _ _ (by rw [length_wr8]; omega)]
    omega
  · rw [rd8_wr8_ne _ _ _ _ (by omega), rd8_wr8_eq _ _ _ (by omega),
      rd8_wr8_eq _ _ _ (by rw [length_wr8]; omega)]
    omega

theorem rd16_wr16_ne (e f : Endian) (d : Packet) (off v i : Nat)
    (h : i + 2 ≤ off ∨ off + 2 ≤ i) : rd16 f (wr16 e d off v) i = rd16 f d i := by
  cases f <;> simp only [rd16] <;>
    rw [rd8_wr16_ne _ _ _ _ _ (by omega) (by omega), rd8_wr16_ne _ _ _ _ _ (by omega) (by omega)]

theorem rd32_wr16_ne (e f : Endian) (d : Packet) (off v i : Nat)
    (h : i + 4 ≤ off ∨ off + 2 ≤ i) : rd32 f (wr16 e d off v) i = rd32 f d i := by
  cases f <;> simp only [rd32] <;>
    rw [rd16_wr16_ne _ _ _ _ _ _ (by omega), rd16_wr16_ne _ _ _ _ _ _ (by omega)]

theorem rd32_wr32_eq (e : Endian) (d : Packet) (off v : Nat) (h : off + 4 ≤ d.length) :
    rd32 e (wr32 e d off v) off = v % 2 ^ 32 := by
  cases e <;> simp only [rd32, wr32]
  · rw [rd16_wr16_ne _ _ _ _ _ _ (by omega), rd16_wr16_eq _ _ _ _ (by omega),
      rd16_wr16_eq _ _ _ _ (by rw [length_wr16]; omega)]
    omega
  · rw [rd16_wr16_ne _ _ _ _ _ _ (by omega), rd16_wr16_eq _ _ _ _ (by omega),
      rd16_wr16_eq _ _ _ _ (by rw [length_wr16]; omega)]
    omega

theorem rd32_wr32_ne (e f : Endian) (d : Packet) (off v i : Nat)
    (h : i + 4 ≤ off ∨ off + 4 ≤ i) : rd32 f (wr32 e d off v) i = rd32 f d i := by
  cases e <;> simp only [wr32] <;>
    rw [rd32_wr16_ne _ _ _ _ _ _ (by omega), rd32_wr16_ne _ _ _ _ _ _ (by omega)]

theorem length_rewritten (e : Endian) (d : Packet) (tcp ip ck tck : Nat) :
    (rewritten e d tcp ip ck tck).length = d.length := by
  simp only [rewritten, length_wr16, length_wr32]

theorem update_ip_checksum_some (e : Endian) (d : Packet) (iph : Nat)
    (h : iph + IPHDR_SIZE ≤ d.length) :
    ∃ ck, update_ip_checksum e d iph
      = some (wr16 e (wr16 e d (iph + OFF_IP_CHECK) 0) (iph + OFF_IP_CHECK) ck) := by
  simp only [IPHDR_SIZE] at h
  simp only [update_ip_checksum, OFF_IP_CHECK]
  rw [store16_of_le e d _ _ (by omega), Option.some_bind]
  have hl := length_wr16 e d (iph + 10) 0
  obtain ⟨s, hs⟩ := ip_sum_loop_some e (wr16 e d (iph + 10) 0) iph 10 0 0 (by omega)
  rw [hs, Option.some_bind, store16_of_le e _ _ _ (by omega)]
  exact ⟨_, rfl⟩

theorem update_tcp_checksum_some (e : Endian) (d : Packet) (tcp old_ip new_ip : Nat)
    (h : tcp + TCPHDR_SIZE ≤ d.length) :
    ∃ ck, update_tcp_checksum e d tcp old_ip new_ip
      = some (wr16 e d (tcp + OFF_TCP_CHECK) ck) := by
  simp only [TCPHDR_SIZE] at h
  simp only [update_tcp_checksum, OFF_TCP_CHECK]
  rw [load16_of_le e d _ (by omega), Option.some_bind, store16_of_le e _ _ _ (by omega)]
  exact ⟨_, rfl⟩

/-- The rewrite of lines 122-134 never faults on a packet whose headers fit:
it returns `XDP_PASS`, the buffer with the destination address and the two
checksum fields stored, the tables with the counter step applied, and the
trace of the source address and the chosen backend. -/
theorem lb_rewrite_some (e : Endian) (maps : Maps) (d : Packet) (tcp idx : Nat) (be : backend)
    (h3 : ETH_HLEN + IPHDR_SIZE ≤ d.length) (h4 : ETH_HLEN ≤ tcp)
    (h5 : tcp + TCPHDR_SIZE ≤ d.length) :
    ∃ ck tck, lb_rewrite e maps d ETH_HLEN tcp idx be =
      some ⟨xdp_action.XDP_PASS, rewritten e d tcp be.ip ck tck,
        (match bpf_map_lookup_elem maps.conn_count idx with
          | none => maps
          | some _ => { maps with conn_count := fetch_and_add_one maps.conn_count idx }),
        some (rd32 e d (ETH_HLEN + OFF_IP_SADDR), idx, be.ip)⟩ := by
  simp only [ETH_HLEN, IPHDR_SIZE, TCPHDR_SIZE] at h3 h4 h5
  simp only [lb_rewrite, rewritten, ETH_HLEN, OFF_IP_DADDR, OFF_IP_SADDR, OFF_IP_CHECK,
    OFF_TCP_CHECK]
  rw [load32_of_le e d _ (by omega), Option.some_bind, store32_of_le e d _ _ (by omega),
    Option.some_bind]
  have hl1 := length_wr32 e d (14 + 16) be.ip
  obtain ⟨ck, hd2⟩ := update_ip_checksum_some e (wr32 e d (14 + 16) be.ip) 14
    (by simp only [IPHDR_SIZE]; omega)
  simp only [OFF_IP_CHECK] at hd2
  rw [hd2, Option.some_bind]
  obtain ⟨tck, hd3⟩ := update_tcp_checksum_some e
    (wr16 e (wr16 e (wr32 e d (14 + 16) be.ip) (14 + 10) 0) (14 + 10) ck) tcp
    (rd32 e d (14 + 16)) be.ip
    (by simp only [TCPHDR_SIZE, length_wr16, length_wr32]; omega)
  simp only [OFF_TCP_CHECK] at hd3
  rw [hd3, Option.some_bind,
    load32_of_le e _ _ (by simp only [length_wr16, length_wr32]; omega), Option.some_bind,
    rd32_wr16_ne _ _ _ _ _ _ (by omega), rd32_wr16_ne _ _ _ _ _ _ (by omega),
    rd32_wr16_ne _ _ _ _ _ _ (by omega), rd32_wr32_ne _ _ _ _ _ _ (by omega)]
  exact ⟨ck, tck, rfl⟩

theorem lb_select_eq (e : Endian) (maps : Maps) (d : Packet)
    (h3 : ETH_HLEN + IPHDR_SIZE ≤ d.length) (h5 : tcp_offset d + TCPHDR_SIZE ≤ d.length) :
    lb_select e maps d ETH_HLEN (tcp_offset d) =
      match bpf_map_lookup_elem maps.hash_ring (ring_pos e d) with
      | none => some (pass_through maps d)
      | some backend_idx =>
        match bpf_map_lookup_elem maps.backends backend_idx with
        | none => some (pass_through maps d)
        | some be =>
          if be.active = 0 ∨ be.ip = 0 then some (pass_through maps d)
          else lb_rewrite e maps d ETH_HLEN (tcp_offset d) backend_idx be := by
  simp only [ETH_HLEN, IPHDR_SIZE, TCPHDR_SIZE] at h3 h5
  simp only [lb_select, ring_pos, OFF_TCP_SOURCE, OFF_IP_SADDR, ETH_HLEN, Nat.add_zero]
  rw [load32_of_le e d _ (by omega), Option.some_bind, load16_of_le e d _ (by omega),
    Option.some_bind]

theorem lb_select_eq_select (e : Endian) (maps : Maps) (d : Packet)
    (h3 : ETH_HLEN + IPHDR_SIZE ≤ d.length) (h5 : tcp_offset d + TCPHDR_SIZE ≤ d.length) :
    lb_select e maps d ETH_HLEN (tcp_offset d) =
      match select_backend maps (ring_pos e d) with
      | none => some (pass_through maps d)
      | some (backend_idx, be) => lb_rewrite e maps d ETH_HLEN (tcp_offset d) backend_idx be := by
  rw [lb_select_eq e maps d h3 h5]
  simp only [select_backend]
  cases bpf_map_lookup_elem maps.hash_ring (ring_pos e d) with
  | none => rfl
  | some idx =>
    simp only []
    cases bpf_map_lookup_elem maps.backends idx with
    | none => rfl
    | some be =>
      simp only []
      by_cases hu : be.active = 0 ∨ be.ip = 0
      · rw [if_pos hu, if_pos hu]
      · rw [if_neg hu, if_neg hu]

theorem select_backend_some (maps : Maps) (pos idx : Nat) (be : backend)
    (h : select_backend maps pos = some (idx, be)) :
    bpf_map_lookup_elem maps.hash_ring pos = some idx ∧
    bpf_map_lookup_elem maps.backends idx = some be ∧ be.active ≠ 0 ∧ be.ip ≠ 0 := by
  simp only [select_backend] at h
  cases hr : bpf_map_lookup_elem maps.hash_ring pos with
  | none => rw [hr] at h; simp at h
  | some i =>
    rw [hr] at h; simp only [] at h
    cases hb : bpf_map_lookup_elem maps.backends i with
    | none => rw [hb] at h; simp at h
    | some b =>
      rw [hb] at h; simp only [] at h
      by_cases hu : b.active = 0 ∨ b.ip = 0
      · rw [if_pos hu] at h; simp at h
      · rw [if_neg hu] at h
        simp only [Option.some.injEq, Prod.mk.injEq] at h
        obtain ⟨h1, h2⟩ := h
        subst h1; subst h2
        exact ⟨rfl, hb, fun h => hu (Or.inl h), fun h => hu (Or.inr h)⟩

theorem lookup_lt {n : Nat} {α : Type} (m : ArrayMap n α) (k : Nat) (v : α)
    (h : bpf_map_lookup_elem m k = some v) : k < n ∧ v = m.slots k := by
  simp only [bpf_map_lookup_elem] at h
  by_cases hk : k < n
  · rw [if_pos hk] at h; exact ⟨hk, (Option.some.inj h).symm⟩
  · rw [if_neg hk] at h; simp at h

/-- What one run of the hook does: either the packet is not classified or no
usable backend is selected, and the hook passes it through untouched; or a
backend is selected, and the hook returns the rewritten buffer, the tables
with the backend's counter stepped, and the trace. -/
theorem lb_main_outcome (e : Endian) (maps : Maps) (d : Packet) :
    ((¬ classified maps d ∨ select_backend maps (ring_pos e d) = none) ∧
      lb_main e maps d = some (pass_through maps d)) ∨
    (∃ idx be ck tck, classified maps d ∧
      select_backend maps (ring_pos e d) = some (idx, be) ∧
      lb_main e maps d = some ⟨xdp_action.XDP_PASS,
        rewritten e d (tcp_offset d) be.ip ck tck,
        { maps with conn_count := fetch_and_add_one maps.conn_count idx },
        some (rd32 e d (ETH_HLEN + OFF_IP_SADDR), idx, be.ip)⟩) := by
  by_cases hc : classified maps d
  · have h3 := hc.2.2.1
    have h5 := hc.2.2.2.2.1
    rw [lb_main_of_classified e maps d hc, lb_select_eq_select e maps d h3 h5]
    cases hs : select_backend maps (ring_pos e d) with
    | none => exact Or.inl ⟨Or.inr rfl, rfl⟩
    | some sel =>
      obtain ⟨idx, be⟩ := sel
      right
      obtain ⟨_, hb, _, _⟩ := select_backend_some maps _ idx be hs
      have hlt := (lookup_lt _ _ _ hb).1
      obtain ⟨ck, tck, hrw⟩ := lb_rewrite_some e maps d (tcp_offset d) idx be h3
        (by simp only [tcp_offset]; omega) h5
      have hcnt : bpf_map_lookup_elem maps.conn_count idx = some (maps.conn_count.slots idx) := by
        simp only [bpf_map_lookup_elem]; rw [if_pos hlt]
      rw [hcnt] at hrw
      exact ⟨idx, be, ck, tck, hc, rfl, hrw⟩
  · exact Or.inl ⟨Or.inl hc, lb_main_of_not_classified e maps d hc⟩

theorem rd16_native_eq (e : Endian) (d : Packet) (off : Nat) :
    rd16 e d off = bpf_htons e (rd16 .big d off) :=
  (rd16_eq_htons_iff e d off _ (rd16_big_lt d off)).2 rfl

theorem rd16_congr (e : Endian) (p q : Packet) (i j : Nat)
    (h : rd16 .big p i = rd16 .big q j) : rd16 e p i = rd16 e q j := by
  rw [rd16_native_eq e p i, rd16_native_eq e q j, h]

theorem rd32_congr (e : Endian) (p q : Packet) (i j : Nat)
    (h : rd32 .big p i = rd32 .big q j) : rd32 e p i = rd32 e q j := by
  have a0 := rd16_big_lt p i
  have a1 := rd16_big_lt p (i + 2)
  have b0 := rd16_big_lt q j
  have b1 := rd16_big_lt q (j + 2)
  simp only [rd32] at h
  have h0 : rd16 .big p i = rd16 .big q j := by omega
  have h1 : rd16 .big p (i + 2) = rd16 .big q (j + 2) := by omega
  have g0 := rd16_congr e p q i j h0
  have g1 := rd16_congr e p q (i + 2) (j + 2) h1
  cases e <;> simp only [rd32] <;> omega

/-- A classified packet is never faulted on, and the trace (source address,
backend index, address written) is determined by the source address and the
selection at the packet's ring slot. -/
theorem lb_main_trace_of_classified (e : Endian) (maps : Maps) (d : Packet)
    (hc : classified maps d) :
    ∃ r, lb_main e maps d = some r ∧
      r.trace = (select_backend maps (ring_pos e d)).map
        (fun s => (rd32 e d (ETH_HLEN + OFF_IP_SADDR), s.1, s.2.ip)) := by
  rcases lb_main_outcome e maps d with ⟨hn, hrun⟩ | ⟨idx, be, ck, tck, _, hsel, hrun⟩
  · rcases hn with hn | hn
    · exact absurd hc hn
    · exact ⟨_, hrun, by rw [hn]; rfl⟩
  · exact ⟨_, hrun, by rw [hsel]; rfl⟩

/-- The destination-address field of a rewritten buffer holds the stored
address as long as the TCP checksum field lies past it, which is the case for
every `ihl` but 0. -/
theorem daddr_of_rewritten (e : Endian) (d : Packet) (tcp ip ck tck : Nat)
    (h3 : ETH_HLEN + IPHDR_SIZE ≤ d.length) (htcp : ETH_HLEN + 4 ≤ tcp) :
    ip_daddr_field e (rewritten e d tcp ip ck tck) = ip % 2 ^ 32 := by
  simp only [ETH_HLEN, IPHDR_SIZE] at h3 htcp
  simp only [ip_daddr_field, rewritten, ETH_HLEN, OFF_IP_DADDR, OFF_IP_CHECK, OFF_TCP_CHECK]
  rw [rd32_wr16_ne _ _ _ _ _ _ (by omega), rd32_wr16_ne _ _ _ _ _ _ (by omega),
    rd32_wr16_ne _ _ _ _ _ _ (by omega), rd32_wr32_eq _ _ _ _ (by omega)]

/-- Whenever a packet with `ihl ≠ 0` is forwarded, the destination-address
field holds the (32-bit) address of the backend named by the trace when the
hook returns. -/
theorem lb_main_daddr_of_ihl_ne_zero (e : Endian) (maps : Maps) (d : Packet) (r : Result)
    (s k ip : Nat) (hrun : lb_main e maps d = some r) (ht : r.trace = some (s, k, ip))
    (hihl : ip_ihl d ≠ 0) :
    ip_daddr_field e r.data = ip % 2 ^ 32 := by
  rcases lb_main_outcome e maps d with ⟨_, hpass⟩ | ⟨idx, be, ck, tck, hc, _, hfw⟩
  · rw [hpass] at hrun
    have hr := Option.some.inj hrun
    subst hr
    simp [pass_through] at ht
  · rw [hfw] at hrun
    have hr := Option.some.inj hrun
    subst hr
    simp only [Option.some.injEq, Prod.mk.injEq] at ht
    obtain ⟨_, _, hip⟩ := ht
    subst hip
    exact daddr_of_rewritten e d _ _ ck tck hc.2.2.1 (by simp only [tcp_offset]; omega)

/-! ## The claims -/

/-- C1 (defect of the code): on the example scenario the packet is forwarded
to backend 3 and its TCP checksum was correct beforehand, yet the checksum
field written by `update_tcp_checksum` differs from the TCP checksum
recomputed from scratch over the rewritten packet (43332): the hook stores
38741 on a little-endian target and 43331 on a big-endian one. -/
theorem update_tcp_checksum_differs_from_recompute :
    tcp_check scenario_pkt = spec_tcp_checksum scenario_pkt ∧
    (lb_main .little (scenario_maps .little) scenario_pkt).map
        (fun r => (r.trace, tcp_check r.data, spec_tcp_checksum r.data))
      = some (some (67305985, 3, 83886090), 38741, 43332) ∧
    (lb_main .big (scenario_maps .big) scenario_pkt).map
        (fun r => (r.trace, tcp_check r.data, spec_tcp_checksum r.data))
      = some (some (16909060, 3, 167772165), 43331, 43332) := by
  decide

/-- C2 (defect of the code): a forwarded packet whose IPv4 header carries
options (`ihl = 6`) had a correct header checksum beforehand, yet the field
left by `update_ip_checksum` (27585, from the first ten words only) differs
from the checksum recomputed over all `ihl * 4` header bytes (27071), on
either byte order; on the 20-byte header of the example scenario the two
agree (27845). -/
theorem update_ip_checksum_skips_options :
    ip_ihl options_pkt = 6 ∧
    ip_check options_pkt = spec_ip_checksum options_pkt ∧
    (lb_main .little (scenario_maps .little) scenario_pkt).map
        (fun r => (ip_check r.data, spec_ip_checksum r.data)) = some (27845, 27845) ∧
    (lb_main .little (scenario_maps .little) options_pkt).map
        (fun r => (r.trace, ip_check r.data, spec_ip_checksum r.data))
      = some (some (67305985, 3, 83886090), 27585, 27071) ∧
    (lb_main .big (scenario_maps .big) options_pkt).map
        (fun r => (r.trace, ip_check r.data, spec_ip_checksum r.data))
      = some (some (16909060, 3, 167772165), 27585, 27071) := by
  decide

/-- C3 (defect of the code): a packet with `ihl = 0` is forwarded to backend
3, whose address is the one found through the ring slot of the flow hash,
but the destination-address field does not hold that address when the hook
returns: the TCP checksum store lands on its first two bytes.  On the
example scenario (`ihl = 5`) the field does hold the backend address. -/
theorem lb_main_daddr_overwritten_when_ihl_zero :
    ip_ihl ihl_zero_pkt = 0 ∧
    (lb_main .little (scenario_maps .little) scenario_pkt).map
        (fun r => ip_daddr_field .little r.data) = some 83886090 ∧
    ((scenario_maps .little).backends.slots
        ((scenario_maps .little).hash_ring.slots (ring_pos .little ihl_zero_pkt))).ip
      = 83886090 ∧
    (lb_main .little (scenario_maps .little) ihl_zero_pkt).map
        (fun r => (r.trace, ip_daddr_field .little r.data))
      = some (some (67305985, 3, 83886090), 83932846) ∧
    ((scenario_maps .big).backends.slots
        ((scenario_maps .big).hash_ring.slots (ring_pos .big ihl_zero_pkt))).ip
      = 167772165 ∧
    (lb_main .big (scenario_maps .big) ihl_zero_pkt).map
        (fun r => (r.trace, ip_daddr_field .big r.data))
      = some (some (16909060, 3, 167772165), 3231973381) := by
  decide

/-- C4: when a run of `lb_main` forwards a packet to backend index `k` (the
trace names `k`), then `k` is the index held by the packet's ring slot, it
is below 16 so the counter lookup succeeds, `conn_count[k]` is its old value
plus 1 modulo 2^64 and every other counter is unchanged; and a run that
emits no trace has changed neither the packet nor any table, so no rewrite
happens without the increment. -/
theorem lb_main_counts_each_forward (e : Endian) (maps : Maps) (d : Packet) (r : Result)
    (hrun : lb_main e maps d = some r) :
    (∀ s k ip, r.trace = some (s, k, ip) →
      bpf_map_lookup_elem maps.hash_ring (ring_pos e d) = some k ∧
      k < MAX_BACKENDS ∧
      bpf_map_lookup_elem maps.conn_count k = some (maps.conn_count.slots k) ∧
      r.maps.conn_count.slots k = (maps.conn_count.slots k + 1) % 2 ^ 64 ∧
      ∀ j, j ≠ k → r.maps.conn_count.slots j = maps.conn_count.slots j) ∧
    (r.trace = none → r.data = d ∧ r.maps = maps) := by
  rcases lb_main_outcome e maps d with ⟨_, hpass⟩ | ⟨idx, be, ck, tck, _, hsel, hfw⟩
  · rw [hpass] at hrun
    have hr := Option.some.inj hrun
    subst hr
    refine ⟨?_, fun _ => ⟨rfl, rfl⟩⟩
    intro s k ip ht
    simp [pass_through] at ht
  · rw [hfw] at hrun
    have hr := Option.some.inj hrun
    subst hr
    obtain ⟨hring, hb, _, _⟩ := select_backend_some maps _ idx be hsel
    have hlt := (lookup_lt _ _ _ hb).1
    refine ⟨?_, fun ht => by simp at ht⟩
    intro s k ip ht
    simp only [Option.some.injEq, Prod.mk.injEq] at ht
    obtain ⟨_, hk, _⟩ := ht
    subst hk
    refine ⟨hring, hlt, ?_, ?_, ?_⟩
    · simp only [bpf_map_lookup_elem]; rw [if_pos hlt]
    · simp [fetch_and_add_one]
    · intro j hj
      simp [fetch_and_add_one, hj]

/-- C4 at the example scenario: the packet is forwarded to backend 3 and
counter 3 goes from 0 to 1. -/
theorem lb_main_counts_each_forward_witness :
    ∃ r, lb_main .little (scenario_maps .little) scenario_pkt = some r ∧
      r.trace = some (67305985, 3, 83886090) ∧
      r.maps.conn_count.slots 3 = 1 ∧ r.maps.conn_count.slots 4 = 0 :=
  ⟨_, rfl, rfl,
    ((lb_main_counts_each_forward .little (scenario_maps .little) scenario_pkt _ rfl).1
      _ _ _ rfl).2.2.2.1,
    ((lb_main_counts_each_forward .little (scenario_maps .little) scenario_pkt _ rfl).1
      _ _ _ rfl).2.2.2.2 4 (by decide)⟩

/-- C5: when the backend record resolved for the packet's ring slot has
`active == 0` or `ip == 0`, `lb_main` returns the packet and all tables (so
every counter) exactly as it received them. -/
theorem lb_main_unusable_backend_passes (e : Endian) (maps : Maps) (d : Packet)
    (idx : Nat) (be : backend)
    (hring : bpf_map_lookup_elem maps.hash_ring (ring_pos e d) = some idx)
    (hbe : bpf_map_lookup_elem maps.backends idx = some be)
    (hun : be.active = 0 ∨ be.ip = 0) :
    lb_main e maps d = some (pass_through maps d) := by
  rcases lb_main_outcome e maps d with ⟨_, hpass⟩ | ⟨i, b, _, _, _, hsel, _⟩
  · exact hpass
  · obtain ⟨h1, h2, h3, h4⟩ := select_backend_some maps _ i b hsel
    rw [hring] at h1
    have hi := Option.some.inj h1
    subst hi
    rw [hbe] at h2
    have hb := Option.some.inj h2
    subst hb
    rcases hun with h | h
    · exact absurd h h3
    · exact absurd h h4

/-- C5 at the example packet with backend 3 inactive. -/
theorem lb_main_unusable_backend_passes_witness :
    bpf_map_lookup_elem inactive_maps.hash_ring (ring_pos .little scenario_pkt) = some 3 ∧
    bpf_map_lookup_elem inactive_maps.backends 3 = some ⟨83886090, 0, 0⟩ ∧
    lb_main .little inactive_maps scenario_pkt
      = some (pass_through inactive_maps scenario_pkt) :=
  ⟨by decide, by decide,
    lb_main_unusable_backend_passes .little inactive_maps scenario_pkt 3 ⟨83886090, 0, 0⟩
      (by decide) (by decide) (Or.inl rfl)⟩

/-- C6: a packet whose EtherType is not IPv4 (0x0800), or whose IPv4
protocol is not TCP (6), or whose TCP destination port (converted from
network order) is not the configured target port, is returned with the
packet and all tables (so every counter) unchanged, whatever the backend and
ring tables hold. -/
theorem lb_main_unmatched_traffic_passes (e : Endian) (maps : Maps) (d : Packet)
    (h : eth_type d ≠ ETH_P_IP ∨ ip_protocol d ≠ IPPROTO_TCP ∨
      bpf_map_lookup_elem maps.lb_port 0 ≠ some (tcp_dport d)) :
    lb_main e maps d = some (pass_through maps d) := by
  apply lb_main_of_not_classified
  rintro ⟨_, h2, _, h4, _, h6, _⟩
  rcases h with h | h | h
  · exact h h2
  · exact h h4
  · exact h h6

/-- C6 at the example packet (destination port 8080) with target port 9090. -/
theorem lb_main_unmatched_traffic_passes_witness :
    bpf_map_lookup_elem other_port_maps.lb_port 0 ≠ some (tcp_dport scenario_pkt) ∧
    lb_main .little other_port_maps scenario_pkt
      = some (pass_through other_port_maps scenario_pkt) :=
  ⟨by decide,
    lb_main_unmatched_traffic_passes .little other_port_maps scenario_pkt
      (Or.inr (Or.inr (by decide)))⟩

/-- C7: a buffer shorter than the 14-byte Ethernet header, or shorter than
Ethernet plus the 20-byte IPv4 header, or shorter than `14 + 4 * ihl + 20`
bytes, is passed through: `lb_main` returns with the packet and all tables
unchanged. -/
theorem lb_main_truncated_buffer_passes (e : Endian) (maps : Maps) (d : Packet)
    (h : d.length < ETH_HLEN ∨ d.length < ETH_HLEN + IPHDR_SIZE ∨
      d.length < ETH_HLEN + 4 * ip_ihl d + TCPHDR_SIZE) :
    lb_main e maps d = some (pass_through maps d) := by
  apply lb_main_of_not_classified
  rintro ⟨h1, _, h3, _, h5, _, _⟩
  simp only [tcp_offset] at h5
  omega

/-- C7 at the example packet cut to 40 bytes (54 are needed). -/
theorem lb_main_truncated_buffer_passes_witness :
    (scenario_pkt.take 40).length < ETH_HLEN + 4 * ip_ihl (scenario_pkt.take 40) + TCPHDR_SIZE ∧
    lb_main .little (scenario_maps .little) (scenario_pkt.take 40)
      = some (pass_through (scenario_maps .little) (scenario_pkt.take 40)) :=
  ⟨by decide,
    lb_main_truncated_buffer_passes .little (scenario_maps .little) (scenario_pkt.take 40)
      (Or.inr (Or.inr (by decide)))⟩

/-- C8: when the target-port lookup yields nothing or the value 0, every
packet, also one whose TCP destination port is 0, is returned with the
packet and all tables (so every counter) unchanged. -/
theorem lb_main_port_unset_passes (e : Endian) (maps : Maps) (d : Packet)
    (h : bpf_map_lookup_elem maps.lb_port 0 = none ∨
      bpf_map_lookup_elem maps.lb_port 0 = some 0) :
    lb_main e maps d = some (pass_through maps d) := by
  apply lb_main_of_not_classified
  rintro ⟨_, _, _, _, _, h6, h7⟩
  rcases h with h | h
  · rw [h] at h6; simp at h6
  · rw [h] at h6
    exact h7 (Option.some.inj h6).symm

/-- C8 at a packet with TCP destination port 0 and the target port unset. -/
theorem lb_main_port_unset_passes_witness :
    tcp_dport zero_port_pkt = 0 ∧
    bpf_map_lookup_elem unset_port_maps.lb_port 0 = some 0 ∧
    lb_main .little unset_port_maps zero_port_pkt
      = some (pass_through unset_port_maps zero_port_pkt) :=
  ⟨by decide, by decide,
    lb_main_port_unset_passes .little unset_port_maps zero_port_pkt (Or.inr (by decide))⟩

/-- C9: when the packet's ring slot yields nothing, or holds a backend index
outside 0..15, the backend lookup and the counter lookup at that index both
yield nothing (no record and no counter is read) and `lb_main` returns with
the packet and all tables (so every counter) unchanged. -/
theorem lb_main_bad_ring_index_passes (e : Endian) (maps : Maps) (d : Packet)
    (h : bpf_map_lookup_elem maps.hash_ring (ring_pos e d) = none ∨
      ∃ idx, bpf_map_lookup_elem maps.hash_ring (ring_pos e d) = some idx ∧
        MAX_BACKENDS ≤ idx) :
    lb_main e maps d = some (pass_through maps d) ∧
    ∀ idx, bpf_map_lookup_elem maps.hash_ring (ring_pos e d) = some idx →
      bpf_map_lookup_elem maps.backends idx = none ∧
      bpf_map_lookup_elem maps.conn_count idx = none := by
  have hidx : ∀ idx, bpf_map_lookup_elem maps.hash_ring (ring_pos e d) = some idx →
      MAX_BACKENDS ≤ idx := by
    intro idx hi
    rcases h with h | ⟨j, hj, hge⟩
    · rw [h] at hi; simp at hi
    · rw [hj] at hi
      have := Option.some.inj hi
      subst this
      exact hge
  constructor
  · rcases lb_main_outcome e maps d with ⟨_, hpass⟩ | ⟨i, b, _, _, _, hsel, _⟩
    · exact hpass
    · obtain ⟨h1, h2, _, _⟩ := select_backend_some maps _ i b hsel
      have hge := hidx i h1
      have hlt := (lookup_lt _ _ _ h2).1
      omega
  · intro idx hi
    have hge := hidx idx hi
    simp only [bpf_map_lookup_elem]
    rw [if_neg (by omega), if_neg (by omega)]
    exact ⟨rfl, rfl⟩

/-- C9 at the example packet with every ring slot naming index 16. -/
theorem lb_main_bad_ring_index_passes_witness :
    bpf_map_lookup_elem bad_ring_maps.hash_ring (ring_pos .little scenario_pkt) = some 16 ∧
    lb_main .little bad_ring_maps scenario_pkt
      = some (pass_through bad_ring_maps scenario_pkt) :=
  ⟨by decide,
    (lb_main_bad_ring_index_passes .little bad_ring_maps scenario_pkt
      (Or.inr ⟨16, by decide, by decide⟩)).1⟩

/-- Selection is a function of flow identity: for fixed tables, two packets
that both pass classification and carry the same IPv4 source address and the
same TCP source port get the same ring slot, and both runs return with the
same trace: either neither forwards, or both forward to the same backend
index with the same backend address, which are those selected at that ring
slot.  When both packets have `ihl ≠ 0` and are forwarded, they also leave
with the same destination-address field. -/
theorem lb_main_flow_deterministic (e : Endian) (maps : Maps) (p q : Packet)
    (hp : classified maps p) (hq : classified maps q)
    (hs : ip_saddr p = ip_saddr q) (ht : tcp_sport p = tcp_sport q) :
    ring_pos e p = ring_pos e q ∧
    ∃ rp rq, lb_main e maps p = some rp ∧ lb_main e maps q = some rq ∧
      rp.trace = rq.trace ∧
      rp.trace.map Prod.snd =
        (select_backend maps (ring_pos e p)).map (fun s => (s.1, s.2.ip)) ∧
      (ip_ihl p ≠ 0 → ip_ihl q ≠ 0 → rp.trace ≠ none →
        ip_daddr_field e rp.data = ip_daddr_field e rq.data) := by
  have hsaddr := rd32_congr e p q _ _ hs
  have hring : ring_pos e p = ring_pos e q := by
    simp only [ring_pos]
    rw [hsaddr, rd16_congr e p q _ _ ht]
  obtain ⟨rp, hrp, htp⟩ := lb_main_trace_of_classified e maps p hp
  obtain ⟨rq, hrq, htq⟩ := lb_main_trace_of_classified e maps q hq
  have htr : rp.trace = rq.trace := by rw [htp, htq, hring, hsaddr]
  refine ⟨hring, rp, rq, hrp, hrq, htr, ?_, ?_⟩
  · rw [htp]
    cases select_backend maps (ring_pos e p) <;> rfl
  · intro hip hiq hne
    cases hx : rp.trace with
    | none => exact absurd hx hne
    | some t =>
      obtain ⟨s, k, ip⟩ := t
      rw [lb_main_daddr_of_ihl_ne_zero e maps p rp s k ip hrp hx hip,
        lb_main_daddr_of_ihl_ne_zero e maps q rq s k ip hrq (by rw [← htr, hx]) hiq]

/-- The example packet and the packet of the same flow with IPv4 options
(both `ihl ≠ 0`): both are forwarded to backend 3 at address 10.0.0.5 and
leave with the same destination-address field. -/
theorem lb_main_flow_deterministic_example :
    classified (scenario_maps .little) scenario_pkt ∧
    classified (scenario_maps .little) options_pkt ∧
    ip_saddr scenario_pkt = ip_saddr options_pkt ∧
    tcp_sport scenario_pkt = tcp_sport options_pkt ∧
    scenario_pkt ≠ options_pkt ∧
    ring_pos .little scenario_pkt = ring_pos .little options_pkt ∧
    ∃ rp rq, lb_main .little (scenario_maps .little) scenario_pkt = some rp ∧
      lb_main .little (scenario_maps .little) options_pkt = some rq ∧
      rp.trace = rq.trace ∧
      ip_daddr_field .little rp.data = ip_daddr_field .little rq.data := by
  refine ⟨by decide, by decide, by decide, by decide, by decide, ?_⟩
  obtain ⟨h1, rp, rq, h2, h3, h4, _, h6⟩ :=
    lb_main_flow_deterministic .little (scenario_maps .little) scenario_pkt options_pkt
      (by decide) (by decide) (by decide) (by decide)
  refine ⟨h1, rp, rq, h2, h3, h4, h6 (by decide) (by decide) ?_⟩
  have h7 : lb_main .little (scenario_maps .little) scenario_pkt
      = some ⟨xdp_action.XDP_PASS, _, _, some (67305985, 3, 83886090)⟩ := rfl
  rw [h7] at h2
  rw [← Option.some.inj h2]
  simp

/-- C10 (defect of the code): two classified packets of the same flow (same
source address 1.2.3.4, same source port field) with `ihl = 0` get the same
ring slot and are both forwarded to backend 3 with the same address 10.0.0.5
in the trace, yet they leave the hook with different destination-address
fields: 174.182.0.5 and 175.182.0.5 on a little-endian target, 192.164.0.5
and 192.165.0.5 on a big-endian one.  The TCP checksum store, whose value
depends on the original destination address, lands on the first two bytes
of the field, because `ihl` is never validated. -/
theorem lb_main_same_flow_different_daddr_when_ihl_zero :
    ip_ihl ihl_zero_pkt = 0 ∧ ip_ihl ihl_zero_pkt_b = 0 ∧
    ip_saddr ihl_zero_pkt = ip_saddr ihl_zero_pkt_b ∧
    tcp_sport ihl_zero_pkt = tcp_sport ihl_zero_pkt_b ∧
    classified (scenario_maps .little) ihl_zero_pkt ∧
    classified (scenario_maps .little) ihl_zero_pkt_b ∧
    classified (scenario_maps .big) ihl_zero_pkt ∧
    classified (scenario_maps .big) ihl_zero_pkt_b ∧
    ring_pos .little ihl_zero_pkt = ring_pos .little ihl_zero_pkt_b ∧
    ring_pos .big ihl_zero_pkt = ring_pos .big ihl_zero_pkt_b ∧
    (lb_main .little (scenario_maps .little) ihl_zero_pkt).map
        (fun r => (r.trace, ip_daddr_field .little r.data, r.data.drop 30))
      = some (some (67305985, 3, 83886090), 83932846, [174, 182, 0, 5]) ∧
    (lb_main .little (scenario_maps .little) ihl_zero_pkt_b).map
        (fun r => (r.trace, ip_daddr_field .little r.data, r.data.drop 30))
      = some (some (67305985, 3, 83886090), 83932847, [175, 182, 0, 5]) ∧
    (lb_main .big (scenario_maps .big) ihl_zero_pkt).map
        (fun r => (r.trace, ip_daddr_field .big r.data, r.data.drop 30))
      = some (some (16909060, 3, 167772165), 3231973381, [192, 164, 0, 5]) ∧
    (lb_main .big (scenario_maps .big) ihl_zero_pkt_b).map
        (fun r => (r.trace, ip_daddr_field .big r.data, r.data.drop 30))
      = some (some (16909060, 3, 167772165), 3232038917, [192, 165, 0, 5]) :=
  ⟨by decide, by decide, by decide, by decide, by decide, by decide, by decide, by decide,
    by decide, by decide, by decide, by decide, by decide, by decide⟩

/-! ## Frame of a run -/

theorem get_wr8_ne (d : Packet) (off v i : Nat) (h : i ≠ off) :
    (wr8 d off v)[i]? = d[i]? := by
  simp only [wr8]
  rw [List.getElem?_set_ne (Ne.symm h)]

theorem get_wr16_ne (e : Endian) (d : Packet) (off v i : Nat) (h0 : i ≠ off)
    (h1 : i ≠ off + 1) : (wr16 e d off v)[i]? = d[i]? := by
  cases e <;> simp only [wr16] <;> rw [get_wr8_ne _ _ _ _ h1, get_wr8_ne _ _ _ _ h0]

theorem get_wr32_ne (e : Endian) (d : Packet) (off v i : Nat)
    (h : i < off ∨ off + 4 ≤ i) : (wr32 e d off v)[i]? = d[i]? := by
  cases e <;> simp only [wr32] <;>
    rw [get_wr16_ne _ _ _ _ _ (by omega) (by omega), get_wr16_ne _ _ _ _ _ (by omega) (by omega)]

/-- Outside the destination address, the IPv4 checksum field and the TCP
checksum field, a rewritten buffer has the bytes of the original one. -/
theorem get_rewritten (e : Endian) (d : Packet) (tcp ip ck tck i : Nat)
    (hd : i < ETH_HLEN + OFF_IP_DADDR ∨ ETH_HLEN + OFF_IP_DADDR + 4 ≤ i)
    (hc : i < ETH_HLEN + OFF_IP_CHECK ∨ ETH_HLEN + OFF_IP_CHECK + 2 ≤ i)
    (ht : i < tcp + OFF_TCP_CHECK ∨ tcp + OFF_TCP_CHECK + 2 ≤ i) :
    (rewritten e d tcp ip ck tck)[i]? = d[i]? := by
  simp only [rewritten]
  rw [get_wr16_ne _ _ _ _ _ (by omega) (by omega), get_wr16_ne _ _ _ _ _ (by omega) (by omega),
    get_wr16_ne _ _ _ _ _ (by omega) (by omega), get_wr32_ne _ _ _ _ _ hd]

theorem succ_mod_ne (c : Nat) : (c + 1) % 2 ^ 64 ≠ c := by omega

theorem select_backend_of (maps : Maps) (pos idx : Nat) (be : backend)
    (h1 : bpf_map_lookup_elem maps.hash_ring pos = some idx)
    (h2 : bpf_map_lookup_elem maps.backends idx = some be)
    (h3 : be.active ≠ 0) (h4 : be.ip ≠ 0) :
    select_backend maps pos = some (idx, be) := by
  simp only [select_backend, h1, h2]
  rw [if_neg (by rintro (h | h); exact h3 h; exact h4 h)]

/-! ## Arithmetic of folds, byte swaps and one's-complement sums -/

theorem fold16_eq (s : Nat) : fold16 s = s % 65536 + s / 65536 := by
  simp only [fold16, Nat.shiftRight_eq_div_pow]
  have := Nat.and_pow_two_sub_one_eq_mod s 16
  norm_num at this ⊢
  omega

theorem land_ffff (x : Nat) : x &&& 0xFFFF = x % 65536 := by
  have := Nat.and_pow_two_sub_one_eq_mod x 16
  norm_num at this ⊢
  exact this

theorem shr16 (x : Nat) : x >>> 16 = x / 65536 := by
  rw [Nat.shiftRight_eq_div_pow]

/-- Two carry folds bring any 32-bit value into 16 bits, keep its residue
modulo 0xFFFF, and give 0 only for 0. -/
theorem fold16_fold16 (s : Nat) (h : s < 2 ^ 32) :
    fold16 (fold16 s) ≤ 0xFFFF ∧ fold16 (fold16 s) % 65535 = s % 65535 ∧
    (fold16 (fold16 s) = 0 ↔ s = 0) := by
  rw [fold16_eq (fold16 s), fold16_eq s]
  norm_num at h ⊢
  omega

theorem htons_htons (e : Endian) (x : Nat) (h : x < 65536) :
    bpf_htons e (bpf_htons e x) = x := by
  have h2 : x / 256 < 256 := by omega
  have h3 : x / 256 % 256 = x / 256 := Nat.mod_eq_of_lt h2
  cases e
  · simp only [bpf_htons, h3]
    have h4 : (x % 256 * 256 + x / 256) / 256 = x % 256 := by omega
    have h5 : (x % 256 * 256 + x / 256) % 256 = x / 256 := by omega
    rw [h4, h5, Nat.mod_mod]
    omega
  · simp only [bpf_htons]
    omega

theorem htons_lt (e : Endian) (x : Nat) : bpf_htons e x < 65536 := by
  cases e <;> simp only [bpf_htons] <;> omega

theorem bnot32_land (x : Nat) (h : x < 65536) : bnot32 x &&& 0xFFFF = 65535 - x := by
  rw [land_ffff]
  simp only [bnot32]
  omega

theorem htons_mod (e : Endian) (x : Nat) : bpf_htons e (x % 65536) = bpf_htons e x := by
  cases e <;> simp only [bpf_htons] <;> omega

/-- The checksum field after `update_tcp_checksum`, read back through
`bpf_ntohs` and complemented, is the twice-folded accumulator. -/
theorem tcp_check_readback (e : Endian) (d : Packet) (off F : Nat)
    (hlen : off + 2 ≤ d.length) (hF : F ≤ 0xFFFF) :
    bnot32 (bpf_ntohs e (rd16 e (wr16 e d off (bpf_htons e (bnot32 F))) off)) &&& 0xFFFF
      = F := by
  have hb : bnot32 F % 65536 = 65535 - F := by simp only [bnot32]; omega
  rw [rd16_wr16_eq e d off _ hlen, Nat.mod_eq_of_lt (htons_lt e _), bpf_ntohs,
    ← htons_mod e (bnot32 F), hb, htons_htons e _ (by omega), bnot32_land _ (by omega)]
  omega


theorem rd16_lt (e : Endian) (d : Packet) (off : Nat) : rd16 e d off < 65536 := by
  have h0 := rd8_lt d off
  have h1 := rd8_lt d (off + 1)
  cases e <;> simp only [rd16] <;> omega

theorem hdr_words_le (e : Endian) (d : Packet) (iph : Nat) :
    ∀ (n i : Nat), ∀ w ∈ hdr_words e d iph i n, w ≤ 65535 := by
  intro n
  induction n with
  | zero => intro i w hw; simp [hdr_words] at hw
  | succ n ih =>
    intro i w hw
    simp only [hdr_words, List.mem_cons] at hw
    rcases hw with hw | hw
    · have := rd16_lt e d (iph + 2 * i); omega
    · exact ih _ w hw

theorem hdr_words_sum_le (e : Endian) (d : Packet) (iph : Nat) :
    ∀ (n i : Nat), (hdr_words e d iph i n).sum ≤ 65535 * n := by
  intro n
  induction n with
  | zero => intro i; simp [hdr_words]
  | succ n ih =>
    intro i
    simp only [hdr_words, List.sum_cons]
    have := rd16_lt e d (iph + 2 * i)
    have := ih (i + 1)
    omega

theorem hdr_words_wr16_ne (e : Endian) (d : Packet) (iph off v : Nat) :
    ∀ (n i : Nat), (off + 2 ≤ iph + 2 * i ∨ iph + 2 * (i + n) ≤ off) →
      hdr_words e (wr16 e d off v) iph i n = hdr_words e d iph i n := by
  intro n
  induction n with
  | zero => intro i _; rfl
  | succ n ih =>
    intro i h
    simp only [hdr_words]
    rw [rd16_wr16_ne _ _ _ _ _ _ (by omega), ih (i + 1) (by omega)]

/-- The loop of `update_ip_checksum` adds the words it is given, without
wrapping as long as the accumulator has room. -/
theorem ip_sum_loop_eq (e : Endian) (d : Packet) (iph : Nat) :
    ∀ (fuel i sum : Nat), iph + 2 * (i + fuel) ≤ d.length → sum + 65535 * fuel < 2 ^ 32 →
      ip_sum_loop e d iph fuel i sum = some (sum + (hdr_words e d iph i fuel).sum) := by
  intro fuel
  induction fuel with
  | zero => intro i sum _ _; simp [ip_sum_loop, hdr_words]
  | succ n ih =>
    intro i sum h hs
    simp only [ip_sum_loop, hdr_words, List.sum_cons]
    rw [load16_of_le e d _ (by omega), Option.some_bind]
    have hw := rd16_lt e d (iph + 2 * i)
    have hlt : sum + rd16 e d (iph + 2 * i) < 2 ^ 32 := by norm_num at hs ⊢; omega
    rw [Nat.mod_eq_of_lt hlt, ih (i + 1) _ (by omega) (by norm_num at hs ⊢; omega), Nat.add_assoc]

/-- One's-complement addition keeps the accumulator a 16-bit representative
of the running sum: same residue modulo 0xFFFF, and zero only for a zero sum. -/
theorem foldl_csum_add_inv (ws : List Nat) :
    ∀ (acc x : Nat), (∀ w ∈ ws, w ≤ 65535) → acc ≤ 65535 → acc % 65535 = x % 65535 →
      (acc = 0 ↔ x = 0) →
      ws.foldl spec_csum_add acc ≤ 65535 ∧
      ws.foldl spec_csum_add acc % 65535 = (x + ws.sum) % 65535 ∧
      (ws.foldl spec_csum_add acc = 0 ↔ x + ws.sum = 0) := by
  induction ws with
  | nil => intro acc x _ h1 h2 h3; simpa using ⟨h1, h2, h3⟩
  | cons w ws ih =>
    intro acc x hw h1 h2 h3
    have hw0 : w ≤ 65535 := hw w (List.mem_cons_self _ _)
    simp only [List.foldl_cons, List.sum_cons]
    rw [← Nat.add_assoc]
    apply ih
    · intro u hu; exact hw u (List.mem_cons_of_mem _ hu)
    · simp only [spec_csum_add]; split <;> omega
    · simp only [spec_csum_add]; split <;> omega
    · simp only [spec_csum_add]; split <;> omega

theorem spec_ones_sum_inv (ws : List Nat) (hw : ∀ w ∈ ws, w ≤ 65535) :
    spec_ones_sum ws ≤ 65535 ∧ spec_ones_sum ws % 65535 = ws.sum % 65535 ∧
    (spec_ones_sum ws = 0 ↔ ws.sum = 0) := by
  have := foldl_csum_add_inv ws 0 0 hw (by omega) rfl Iff.rfl
  simpa [spec_ones_sum] using this

theorem mix_round (h k : Nat) :
    (h + (h <<< k) % 2 ^ 32) % 2 ^ 32 = ((2 ^ k + 1) * h) % 2 ^ 32 := by
  rw [Nat.shiftLeft_eq, Nat.add_mod_mod]
  congr 1
  ring

theorem jhash_eq_spec (a b : Nat) : jhash_2words a b = spec_jhash a b := by
  simp only [jhash_2words, spec_jhash, mix_round, Nat.shiftRight_eq_div_pow]
  norm_num

theorem jhash_congr (a b c d : Nat) (h : (a + b) % 2 ^ 32 = (c + d) % 2 ^ 32) :
    jhash_2words a b = jhash_2words c d := by
  simp only [jhash_2words, h]

/-- Sequential counterpart of the counter step: `n` increments of slot `k`,
one after another, add `n` modulo 2^64. -/
theorem fetch_and_add_one_iterate (k : Nat) :
    ∀ (n : Nat) (m : ArrayMap MAX_BACKENDS Nat), m.slots k < 2 ^ 64 →
      ((fun t => fetch_and_add_one t k)^[n] m).slots k = (m.slots k + n) % 2 ^ 64 := by
  intro n
  induction n with
  | zero => intro m h; simp only [Function.iterate_zero, id, Nat.add_zero]; omega
  | succ n ih =>
    intro m h
    have hk : (fetch_and_add_one m k).slots k = (m.slots k + 1) % 2 ^ 64 := by
      simp [fetch_and_add_one]
    rw [Function.iterate_succ, Function.comp_apply, ih _ (by rw [hk]; omega), hk]
    omega

/-! ## The claims, continued -/

/-- C11: every run of `lb_main` returns a buffer of the same length in which
only the four bytes of the IPv4 destination address (header offset 16..19),
the two bytes of the IPv4 header checksum (header offset 10..11) and the two
bytes of the TCP checksum (offset 16..17 of the TCP header at `14 + 4 * ihl`)
may differ from the input; every other byte is unchanged, and the backend,
ring and target-port tables are returned as they were. -/
theorem lb_main_frame (e : Endian) (maps : Maps) (d : Packet) :
    ∃ r, lb_main e maps d = some r ∧
      r.data.length = d.length ∧
      (∀ i, ¬ (14 + 16 ≤ i ∧ i ≤ 14 + 19) → ¬ (14 + 10 ≤ i ∧ i ≤ 14 + 11) →
        ¬ (14 + 4 * ip_ihl d + 16 ≤ i ∧ i ≤ 14 + 4 * ip_ihl d + 17) →
        r.data[i]? = d[i]?) ∧
      r.maps.backends = maps.backends ∧ r.maps.hash_ring = maps.hash_ring ∧
      r.maps.lb_port = maps.lb_port := by
  rcases lb_main_outcome e maps d with ⟨_, hpass⟩ | ⟨idx, be, ck, tck, _, _, hfw⟩
  · exact ⟨_, hpass, rfl, fun _ _ _ _ => rfl, rfl, rfl, rfl⟩
  · refine ⟨_, hfw, length_rewritten _ _ _ _ _ _, ?_, rfl, rfl, rfl⟩
    intro i h1 h2 h3
    apply get_rewritten
    · simp only [ETH_HLEN, OFF_IP_DADDR]; omega
    · simp only [ETH_HLEN, OFF_IP_CHECK]; omega
    · simp only [tcp_offset, ETH_HLEN, OFF_TCP_CHECK]; omega

/-- C12: for every packet buffer and every table state `lb_main` returns, and
the action it returns is `XDP_PASS`: never a drop, abort, transmit or
redirect. -/
theorem lb_main_returns_pass (e : Endian) (maps : Maps) (d : Packet) :
    ∃ r, lb_main e maps d = some r ∧ r.action = xdp_action.XDP_PASS ∧
      r.action ≠ xdp_action.XDP_DROP ∧ r.action ≠ xdp_action.XDP_ABORTED ∧
      r.action ≠ xdp_action.XDP_TX ∧ r.action ≠ xdp_action.XDP_REDIRECT := by
  have hne : ∀ a : xdp_action, a = xdp_action.XDP_PASS →
      a = xdp_action.XDP_PASS ∧ a ≠ xdp_action.XDP_DROP ∧ a ≠ xdp_action.XDP_ABORTED ∧
      a ≠ xdp_action.XDP_TX ∧ a ≠ xdp_action.XDP_REDIRECT := by
    intro a h
    subst h
    decide
  rcases lb_main_outcome e maps d with ⟨_, hpass⟩ | ⟨idx, be, ck, tck, _, _, hfw⟩
  · exact ⟨_, hpass, hne _ rfl⟩
  · exact ⟨_, hfw, hne _ rfl⟩

/-- C14: `lb_main` has two outcomes.  A counter is incremented exactly when
every stage succeeds: the buffer holds `14 + 4 * ihl + 20` bytes and at
least 34 bytes, the EtherType is IPv4, the protocol is TCP, the target-port
entry is non-zero and equals the TCP destination port, the ring slot
`jhash_2words(saddr, sport) mod 256` holds an index below 16, and that
backend has `active != 0` and `ip != 0`.  In that case the run returns the
buffer with the destination address stored and that backend's counter
stepped, and emits the trace; in every other case it returns the packet and
all tables unchanged. -/
theorem lb_main_forwards_iff (e : Endian) (maps : Maps) (d : Packet) :
    ∃ r, lb_main e maps d = some r ∧
      ((∃ k, r.maps.conn_count.slots k = (maps.conn_count.slots k + 1) % 2 ^ 64) ↔
        (14 + 4 * ip_ihl d + 20 ≤ d.length ∧ 34 ≤ d.length ∧
          eth_type d = ETH_P_IP ∧ ip_protocol d = IPPROTO_TCP ∧
          (∃ tp, bpf_map_lookup_elem maps.lb_port 0 = some tp ∧ tp ≠ 0 ∧ tcp_dport d = tp) ∧
          ∃ idx be, bpf_map_lookup_elem maps.hash_ring (ring_pos e d) = some idx ∧
            idx < 16 ∧ bpf_map_lookup_elem maps.backends idx = some be ∧
            be.active ≠ 0 ∧ be.ip ≠ 0)) ∧
      ((∃ k, r.maps.conn_count.slots k = (maps.conn_count.slots k + 1) % 2 ^ 64) →
        ∃ idx be ck tck,
          bpf_map_lookup_elem maps.hash_ring (ring_pos e d) = some idx ∧
          bpf_map_lookup_elem maps.backends idx = some be ∧
          r = ⟨xdp_action.XDP_PASS, rewritten e d (tcp_offset d) be.ip ck tck,
            { maps with conn_count := fetch_and_add_one maps.conn_count idx },
            some (rd32 e d (ETH_HLEN + OFF_IP_SADDR), idx, be.ip)⟩) ∧
      ((¬ ∃ k, r.maps.conn_count.slots k = (maps.conn_count.slots k + 1) % 2 ^ 64) →
        r = pass_through maps d) := by
  rcases lb_main_outcome e maps d with ⟨hn, hpass⟩ | ⟨idx, be, ck, tck, hc, hsel, hfw⟩
  · have hno : ¬ ∃ k, (pass_through maps d).maps.conn_count.slots k
        = (maps.conn_count.slots k + 1) % 2 ^ 64 := by
      rintro ⟨k, hk⟩
      exact succ_mod_ne _ hk.symm
    refine ⟨_, hpass, ⟨fun h => absurd h hno, ?_⟩, fun h => absurd h hno, fun _ => rfl⟩
    rintro ⟨h1, h2, h3, h4, ⟨tp, h5, h6, h7⟩, i, b, h8, _, h9, h10, h11⟩
    exfalso
    rcases hn with hn | hn
    · apply hn
      refine ⟨by simp only [ETH_HLEN]; omega, h3, by simp only [ETH_HLEN, IPHDR_SIZE]; omega, h4,
        by simp only [tcp_offset, ETH_HLEN, TCPHDR_SIZE]; omega, by rw [h5, h7], by rw [h7]; exact h6⟩
    · rw [select_backend_of maps _ i b h8 h9 h10 h11] at hn
      simp at hn
  · obtain ⟨hring, hb, hact, hip⟩ := select_backend_some maps _ idx be hsel
    have hlt := (lookup_lt _ _ _ hb).1
    have hinc : ∃ k, (fetch_and_add_one maps.conn_count idx).slots k
        = (maps.conn_count.slots k + 1) % 2 ^ 64 := ⟨idx, by simp [fetch_and_add_one]⟩
    obtain ⟨h1, h2, h3, h4, h5, h6, h7⟩ := hc
    refine ⟨_, hfw, ⟨fun _ => ?_, fun _ => hinc⟩, fun _ => ⟨idx, be, ck, tck, hring, hb, rfl⟩,
      fun h => absurd hinc h⟩
    simp only [tcp_offset, ETH_HLEN, TCPHDR_SIZE, IPHDR_SIZE, MAX_BACKENDS] at h1 h3 h5 hlt
    exact ⟨by omega, by omega, h2, h4, ⟨_, h6, h7, rfl⟩, idx, be, hring, hlt, hb, hact, hip⟩

/-- C14 at the example scenario: every stage succeeds, so the run increments
a counter. -/
theorem lb_main_forwards_iff_witness :
    ∃ r, lb_main .little (scenario_maps .little) scenario_pkt = some r ∧
      ∃ k, r.maps.conn_count.slots k
        = ((scenario_maps .little).conn_count.slots k + 1) % 2 ^ 64 :=
  (lb_main_forwards_iff .little (scenario_maps .little) scenario_pkt).imp fun _ h =>
    ⟨h.1, h.2.1.2 ⟨by decide, by decide, by decide, by decide,
      ⟨8080, by decide, by decide, by decide⟩,
      3, ⟨83886090, 0, 1⟩, by decide, by decide, by decide, by decide, by decide⟩⟩

/-- C15: for every buffer of every length and every value of `ihl`, no load
or store of `lb_main`, nor of `update_ip_checksum` and
`update_tcp_checksum` as it calls them, falls outside the buffer: the run
always returns a result, never the out-of-bounds outcome; and the two
checksum routines stay inside any buffer that holds the 20 header bytes they
are given. -/
theorem lb_main_never_out_of_bounds (e : Endian) (maps : Maps) (d : Packet) :
    lb_main e maps d ≠ none ∧ (∃ r, lb_main e maps d = some r) ∧
    (∀ iph, iph + IPHDR_SIZE ≤ d.length → update_ip_checksum e d iph ≠ none) ∧
    (∀ tcp old_ip new_ip, tcp + TCPHDR_SIZE ≤ d.length →
      update_tcp_checksum e d tcp old_ip new_ip ≠ none) := by
  have hsome : ∃ r, lb_main e maps d = some r := by
    rcases lb_main_outcome e maps d with ⟨_, hpass⟩ | ⟨idx, be, ck, tck, _, _, hfw⟩
    · exact ⟨_, hpass⟩
    · exact ⟨_, hfw⟩
  refine ⟨?_, hsome, ?_, ?_⟩
  · obtain ⟨r, hr⟩ := hsome
    rw [hr]
    simp
  · intro iph h
    obtain ⟨ck, hck⟩ := update_ip_checksum_some e d iph h
    rw [hck]
    simp
  · intro tcp old_ip new_ip h
    obtain ⟨ck, hck⟩ := update_tcp_checksum_some e d tcp old_ip new_ip h
    rw [hck]
    simp

/-- C16: on a 20-byte IPv4 header inside the buffer, `update_ip_checksum`
returns; the checksum field then holds the 16-bit complement of the
end-around-carry sum of the other nine 16-bit words; the accumulator of the
ten-word loop fits 32 bits and two folds bring it (as any 32-bit value) into
16 bits; the one's-complement sum of all ten words of the updated header is
0xFFFF, so the header verifies; and no byte outside the checksum field is
changed. -/
theorem update_ip_checksum_verifies (e : Endian) (d : Packet) (iph : Nat)
    (h : iph + IPHDR_SIZE ≤ d.length) :
    ∃ d1, update_ip_checksum e d iph = some d1 ∧
      rd16 e d1 (iph + OFF_IP_CHECK)
        = 0xFFFF - spec_ones_sum (hdr_words e d iph 0 5 ++ hdr_words e d iph 6 4) ∧
      (∃ acc, ip_sum_loop e (wr16 e d (iph + OFF_IP_CHECK) 0) iph 10 0 0 = some acc ∧
        acc < 2 ^ 32 ∧ fold16 (fold16 acc) ≤ 0xFFFF) ∧
      (∀ s, s < 2 ^ 32 → fold16 (fold16 s) ≤ 0xFFFF) ∧
      spec_ones_sum (hdr_words e d1 iph 0 10) = 0xFFFF ∧
      d1.length = d.length ∧
      ∀ i, i ≠ iph + OFF_IP_CHECK → i ≠ iph + OFF_IP_CHECK + 1 → d1[i]? = d[i]? := by
  simp only [IPHDR_SIZE] at h
  simp only [OFF_IP_CHECK]
  -- the nine words that are not the checksum
  have hlo := hdr_words_le e d iph 5 0
  have hhi := hdr_words_le e d iph 4 6
  have hslo := hdr_words_sum_le e d iph 5 0
  have hshi := hdr_words_sum_le e d iph 4 6
  -- words of the header with the checksum field holding `v`
  have hsplit : ∀ v, hdr_words e (wr16 e d (iph + 10) v) iph 0 10
      = hdr_words e d iph 0 5 ++ (v % 65536 :: hdr_words e d iph 6 4) := by
    intro v
    have h1 : hdr_words e (wr16 e d (iph + 10) v) iph 0 10
        = hdr_words e (wr16 e d (iph + 10) v) iph 0 5
          ++ (rd16 e (wr16 e d (iph + 10) v) (iph + 2 * 5)
            :: hdr_words e (wr16 e d (iph + 10) v) iph 6 4) := rfl
    rw [h1, hdr_words_wr16_ne e d iph _ v 5 0 (by omega),
      hdr_words_wr16_ne e d iph _ v 4 6 (by omega), rd16_wr16_eq e d _ v (by omega)]
  have hsplit2 : ∀ v w, hdr_words e (wr16 e (wr16 e d (iph + 10) v) (iph + 10) w) iph 0 10
      = hdr_words e d iph 0 5 ++ (w % 65536 :: hdr_words e d iph 6 4) := by
    intro v w
    have h1 : hdr_words e (wr16 e (wr16 e d (iph + 10) v) (iph + 10) w) iph 0 10
        = hdr_words e (wr16 e (wr16 e d (iph + 10) v) (iph + 10) w) iph 0 5
          ++ (rd16 e (wr16 e (wr16 e d (iph + 10) v) (iph + 10) w) (iph + 2 * 5)
            :: hdr_words e (wr16 e (wr16 e d (iph + 10) v) (iph + 10) w) iph 6 4) := rfl
    rw [h1, hdr_words_wr16_ne e _ iph _ w 5 0 (by omega),
      hdr_words_wr16_ne e _ iph _ w 4 6 (by omega),
      hdr_words_wr16_ne e d iph _ v 5 0 (by omega),
      hdr_words_wr16_ne e d iph _ v 4 6 (by omega),
      rd16_wr16_eq e _ _ w (by rw [length_wr16]; omega)]
  -- the accumulator
  have hloop := ip_sum_loop_eq e (wr16 e d (iph + 10) 0) iph 10 0 0
    (by rw [length_wr16]; omega) (by norm_num)
  rw [hsplit 0] at hloop
  simp only [List.sum_append, List.sum_cons, Nat.zero_mod, Nat.zero_add] at hloop
  generalize hS : (hdr_words e d iph 0 5).sum + (hdr_words e d iph 6 4).sum = S at hloop
  have hSlt : S < 2 ^ 32 := by norm_num; omega
  obtain ⟨f1, f2, f3⟩ := fold16_fold16 S hSlt
  -- the nine-word one's-complement sum
  have hnine := spec_ones_sum_inv (hdr_words e d iph 0 5 ++ hdr_words e d iph 6 4)
    (by
      intro w hw
      rcases List.mem_append.1 hw with hw | hw
      · exact hlo w hw
      · exact hhi w hw)
  rw [List.sum_append, hS] at hnine
  obtain ⟨n1, n2, n3⟩ := hnine
  have hFN : fold16 (fold16 S)
      = spec_ones_sum (hdr_words e d iph 0 5 ++ hdr_words e d iph 6 4) := by
    generalize spec_ones_sum (hdr_words e d iph 0 5 ++ hdr_words e d iph 6 4) = N at n1 n2 n3
    generalize fold16 (fold16 S) = F at f1 f2 f3
    omega
  have hck : bnot32 (fold16 (fold16 S)) % 65536 = 65535 - fold16 (fold16 S) := by
    simp only [bnot32]; omega
  -- run the function
  simp only [update_ip_checksum, OFF_IP_CHECK]
  rw [store16_of_le e d _ _ (by omega), Option.some_bind, hloop, Option.some_bind,
    store16_of_le e _ _ _ (by rw [length_wr16]; omega)]
  refine ⟨_, rfl, ?_, ⟨S, rfl, hSlt, f1⟩, fun s hs => (fold16_fold16 s hs).1, ?_, ?_, ?_⟩
  · rw [rd16_wr16_eq e _ _ _ (by rw [length_wr16]; omega), hck, hFN]
  · rw [hsplit2, hck]
    have hten := spec_ones_sum_inv
      (hdr_words e d iph 0 5 ++ ((65535 - fold16 (fold16 S)) :: hdr_words e d iph 6 4))
      (by
        intro w hw
        rcases List.mem_append.1 hw with hw | hw
        · exact hlo w hw
        · rcases List.mem_cons.1 hw with hw | hw
          · omega
          · exact hhi w hw)
    rw [List.sum_append, List.sum_cons] at hten
    obtain ⟨t1, t2, t3⟩ := hten
    generalize spec_ones_sum
      (hdr_words e d iph 0 5 ++ ((65535 - fold16 (fold16 S)) :: hdr_words e d iph 6 4)) = T
      at t1 t2 t3 ⊢
    generalize fold16 (fold16 S) = F at f1 f2 f3 t2 t3
    omega
  · rw [length_wr16, length_wr16]
  · intro i hi0 hi1
    rw [get_wr16_ne _ _ _ _ _ hi0 hi1, get_wr16_ne _ _ _ _ _ hi0 hi1]

/-- C16 at the 20-byte header of the example packet. -/
theorem update_ip_checksum_verifies_witness :
    14 + IPHDR_SIZE ≤ scenario_pkt.length ∧
    ∃ d1, update_ip_checksum .little scenario_pkt 14 = some d1 ∧
      spec_ones_sum (hdr_words .little d1 14 0 10) = 0xFFFF :=
  ⟨by decide,
    (update_ip_checksum_verifies .little scenario_pkt 14 (by decide)).imp
      fun _ h => ⟨h.1, h.2.2.2.2.1⟩⟩

/-- C17: `jhash_2words` is the pinned mixing sequence bit for bit
(`h0 = (a + b) mod 2^32`, `h1 = 1025 * h0 mod 2^32`, `h2 = h1 xor (h1 div 2^6)`,
`h3 = 9 * h2 mod 2^32`, `h4 = h3 xor (h3 div 2^11)`, result
`32769 * h4 mod 2^32`), a 32-bit value; and the ring slot `lb_main` uses
for a classified packet is that result for the packet's source address and
source port, modulo 256, which is always below 256. -/
theorem jhash_2words_pinned_sequence (a b : Nat) :
    jhash_2words a b = spec_jhash a b ∧ jhash_2words a b < 2 ^ 32 ∧
    ∀ (e : Endian) (d : Packet),
      ring_pos e d = spec_jhash (rd32 e d (ETH_HLEN + OFF_IP_SADDR))
        (rd16 e d (tcp_offset d + OFF_TCP_SOURCE)) % 256 ∧
      ring_pos e d < 256 ∧
      ∀ maps : Maps, classified maps d →
        lb_main e maps d =
          match select_backend maps
            (spec_jhash (rd32 e d (ETH_HLEN + OFF_IP_SADDR))
              (rd16 e d (tcp_offset d + OFF_TCP_SOURCE)) % 256) with
          | none => some (pass_through maps d)
          | some (backend_idx, be) =>
            lb_rewrite e maps d ETH_HLEN (tcp_offset d) backend_idx be := by
  refine ⟨jhash_eq_spec a b, ?_, ?_⟩
  · simp only [jhash_2words]
    exact Nat.mod_lt _ (by norm_num)
  · intro e d
    have hr : ring_pos e d = spec_jhash (rd32 e d (ETH_HLEN + OFF_IP_SADDR))
        (rd16 e d (tcp_offset d + OFF_TCP_SOURCE)) % 256 := by
      simp only [ring_pos, RING_SIZE, jhash_eq_spec]
    refine ⟨hr, ?_, ?_⟩
    · rw [hr]; exact Nat.mod_lt _ (by norm_num)
    · intro maps hc
      rw [← hr]
      exact (lb_main_of_classified e maps d hc).trans
        (lb_select_eq_select e maps d hc.2.2.1 hc.2.2.2.2.1)

/-- C18: when the subtraction of the old address words does not underflow,
`update_tcp_checksum` is an exact one's-complement delta: the complemented
host-order checksum after the update is congruent modulo 65535 to the one
before, minus the two old address words, plus the two new ones; and two
folds leave any 32-bit accumulator at most 0xFFFF. -/
theorem update_tcp_checksum_exact_delta (e : Endian) (d : Packet) (tcp old_ip new_ip : Nat)
    (hlen : tcp + TCPHDR_SIZE ≤ d.length) (hnew : new_ip < 2 ^ 32)
    (hno : (old_ip &&& 0xFFFF) + (old_ip >>> 16)
      ≤ bnot32 (bpf_ntohs e (rd16 e d (tcp + OFF_TCP_CHECK))) &&& 0xFFFF) :
    ∃ d1, update_tcp_checksum e d tcp old_ip new_ip = some d1 ∧
      (bnot32 (bpf_ntohs e (rd16 e d1 (tcp + OFF_TCP_CHECK))) &&& 0xFFFF) % 65535
        = ((bnot32 (bpf_ntohs e (rd16 e d (tcp + OFF_TCP_CHECK))) &&& 0xFFFF)
            - (old_ip &&& 0xFFFF) - (old_ip >>> 16)
            + (new_ip &&& 0xFFFF) + (new_ip >>> 16)) % 65535 ∧
      (bnot32 (bpf_ntohs e (rd16 e d1 (tcp + OFF_TCP_CHECK))) &&& 0xFFFF) ≤ 0xFFFF ∧
      ∀ s, s < 2 ^ 32 → fold16 (fold16 s) ≤ 0xFFFF := by
  simp only [TCPHDR_SIZE, OFF_TCP_CHECK] at hlen hno ⊢
  simp only [update_tcp_checksum, OFF_TCP_CHECK]
  rw [load16_of_le e d _ (by omega), Option.some_bind, store16_of_le e _ _ _ (by omega)]
  generalize hA : bnot32 (bpf_ntohs e (rd16 e d (tcp + 16))) &&& 0xFFFF = A at hno ⊢
  have hA' : A ≤ 65535 := by
    rw [← hA, land_ffff]; omega
  have hn1 : new_ip &&& 0xFFFF ≤ 65535 := by rw [land_ffff]; omega
  have hn2 : new_ip >>> 16 ≤ 65535 := by rw [shr16]; norm_num at hnew; omega
  generalize old_ip &&& 0xFFFF = o1 at hno ⊢
  generalize old_ip >>> 16 = o2 at hno ⊢
  generalize new_ip &&& 0xFFFF = n1 at hn1 ⊢
  generalize new_ip >>> 16 = n2 at hn2 ⊢
  have hX : ((((A + 2 ^ 32 - o1) % 2 ^ 32 + 2 ^ 32 - o2) % 2 ^ 32 + n1) % 2 ^ 32 + n2) % 2 ^ 32
      = A - o1 - o2 + n1 + n2 := by
    norm_num
    omega
  rw [hX]
  have hlt : A - o1 - o2 + n1 + n2 < 2 ^ 32 := by norm_num; omega
  obtain ⟨f1, f2, _⟩ := fold16_fold16 _ hlt
  refine ⟨_, rfl, ?_, ?_, fun s hs => (fold16_fold16 s hs).1⟩
  · rw [tcp_check_readback e d _ _ (by omega) f1, f2]
  · rw [tcp_check_readback e d _ _ (by omega) f1]; exact f1

/-- C18 at the TCP header of the example packet on a big-endian target, for
the address change 10.0.0.1 to 10.0.0.5, which does not underflow. -/
theorem update_tcp_checksum_exact_delta_witness :
    34 + TCPHDR_SIZE ≤ scenario_pkt.length ∧
    (167772161 &&& 0xFFFF) + (167772161 >>> 16)
      ≤ bnot32 (bpf_ntohs .big (rd16 .big scenario_pkt (34 + OFF_TCP_CHECK))) &&& 0xFFFF ∧
    ∃ d1, update_tcp_checksum .big scenario_pkt 34 167772161 167772165 = some d1 ∧
      (bnot32 (bpf_ntohs .big (rd16 .big d1 (34 + OFF_TCP_CHECK))) &&& 0xFFFF) % 65535
        = ((bnot32 (bpf_ntohs .big (rd16 .big scenario_pkt (34 + OFF_TCP_CHECK))) &&& 0xFFFF)
            - (167772161 &&& 0xFFFF) - (167772161 >>> 16)
            + (167772165 &&& 0xFFFF) + (167772165 >>> 16)) % 65535 :=
  ⟨by decide, by decide,
    (update_tcp_checksum_exact_delta .big scenario_pkt 34 167772161 167772165
      (by decide) (by decide) (by decide)).imp fun _ h => ⟨h.1, h.2.1⟩⟩

/-- C19: `jhash_2words` depends on its arguments only through their sum
modulo 2^32: equal sums give equal hashes, so it is symmetric, equals the
hash of the sum and 0, and is 0 at (0, 0).  Hence two packets whose source
address and source port fields (as the target loads them) have the same sum
get the same ring slot and the same backend selection, and, when both are
classified, both runs return with the same backend index and address. -/
theorem jhash_2words_sum_only (e : Endian) (maps : Maps) (p q : Packet)
    (hsum : (rd32 e p (ETH_HLEN + OFF_IP_SADDR) + rd16 e p (tcp_offset p + OFF_TCP_SOURCE))
        % 2 ^ 32
      = (rd32 e q (ETH_HLEN + OFF_IP_SADDR) + rd16 e q (tcp_offset q + OFF_TCP_SOURCE))
        % 2 ^ 32) :
    (∀ a b c d : Nat, (a + b) % 2 ^ 32 = (c + d) % 2 ^ 32 →
      jhash_2words a b = jhash_2words c d) ∧
    (∀ a b : Nat, jhash_2words a b = jhash_2words b a) ∧
    (∀ a b : Nat, jhash_2words a b = jhash_2words (a + b) 0 ∧
      jhash_2words a b = jhash_2words ((a + b) % 2 ^ 32) 0) ∧
    jhash_2words 0 0 = 0 ∧
    ring_pos e p = ring_pos e q ∧
    select_backend maps (ring_pos e p) = select_backend maps (ring_pos e q) ∧
    (classified maps p → classified maps q →
      ∃ rp rq, lb_main e maps p = some rp ∧ lb_main e maps q = some rq ∧
        rp.trace.map Prod.snd = rq.trace.map Prod.snd) := by
  have hring : ring_pos e p = ring_pos e q := by
    simp only [ring_pos]
    rw [jhash_congr _ _ _ _ hsum]
  refine ⟨jhash_congr, fun a b => jhash_congr _ _ _ _ (by rw [Nat.add_comm]),
    fun a b => ⟨jhash_congr _ _ _ _ (by simp), jhash_congr _ _ _ _ (by simp)⟩, by decide,
    hring, by rw [hring], ?_⟩
  intro hp hq
  obtain ⟨rp, hrp, htp⟩ := lb_main_trace_of_classified e maps p hp
  obtain ⟨rq, hrq, htq⟩ := lb_main_trace_of_classified e maps q hq
  refine ⟨rp, rq, hrp, hrq, ?_⟩
  rw [htp, htq, hring]
  cases select_backend maps (ring_pos e q) <;> rfl

/-- C19 at the example packet and a packet of another flow (2.2.3.4, source
port bytes d8 03) with the same sum on a little-endian target: same ring
slot, both forwarded to backend 3. -/
theorem jhash_2words_sum_only_witness :
    ip_saddr scenario_pkt ≠ ip_saddr same_sum_pkt ∧
    tcp_sport scenario_pkt ≠ tcp_sport same_sum_pkt ∧
    classified (scenario_maps .little) scenario_pkt ∧
    classified (scenario_maps .little) same_sum_pkt ∧
    ring_pos .little scenario_pkt = ring_pos .little same_sum_pkt ∧
    ∃ rp rq, lb_main .little (scenario_maps .little) scenario_pkt = some rp ∧
      lb_main .little (scenario_maps .little) same_sum_pkt = some rq ∧
      rp.trace.map Prod.snd = rq.trace.map Prod.snd :=
  ⟨by decide, by decide, by decide, by decide,
    (jhash_2words_sum_only .little (scenario_maps .little) scenario_pkt same_sum_pkt
      (by decide)).2.2.2.2.1,
    (jhash_2words_sum_only .little (scenario_maps .little) scenario_pkt same_sum_pkt
      (by decide)).2.2.2.2.2.2 (by decide) (by decide)⟩

end LB
